import Mathlib

/-!
Shallow embedding of the persistence core of the samuel-portfolio repository:
the IndexedDB-backed `Database` class (local store) and the
`FirebaseDatabase` wrapper (remote mirror client).

Modelling conventions:
* IndexedDB object stores are modelled as Lean lists kept in primary-key
  order (IndexedDB `getAll` returns records in key order); auto-increment
  key generators are explicit `next…Id` counters (a generator starts at 1
  and is not reset by `clear()`).
* Binary blobs are byte lists together with their MIME type
  (`File`/`Blob` objects expose `type` and `size`).
* Wall-clock reads (`new Date().toISOString()`, `Date.now()`) are modelled
  by the `clock` field of the state; no claim depends on timestamp values.
* JavaScript `Array.prototype.sort` with the comparator
  `(a.order || 0) - (b.order || 0)` is a stable sort by the `order` field
  (stability is required by the ECMAScript specification); it is modelled
  by a stable insertion sort.  `order` values are natural numbers in every
  reachable state, so `x.order || 0` is the identity and `Math.max(...)`
  over a non-empty list is `foldl Nat.max 0`.
* Fallible operations (`renameAlbum`, `addVideo`, `importAll`, …) return
  an `Except` paired with the post-state, because a thrown exception in
  the source leaves whatever partial mutations already happened.
-/

namespace Portfolio

/-- Byte content plus MIME type of a JavaScript `File` / `Blob` value. -/
structure JsBlob where
  data : List Nat
  type : String
  deriving Repr, DecidableEq

/-- Record wrapper: every ordered collection stores records with an
auto-assigned integer `id`, an integer `order`, and a payload holding the
remaining fields of the source record. -/
structure Rec (α : Type) where
  id : Nat
  order : Nat
  payload : α
  deriving Repr, DecidableEq

/-- Maximum of the `order` fields, `0` for the empty list.  This is the
source expression `xs.length > 0 ? Math.max(...xs.map(x => x.order || 0)) : 0`
(orders are naturals, so `x.order || 0` is `x.order`). -/
def maxOrder {α : Type} (rs : List (Rec α)) : Nat :=
  (rs.map (fun r => r.order)).foldl Nat.max 0

/-- Stable insertion with respect to a numeric key: the new element goes
in front of the first element whose key is not smaller. -/
def insertByKey {α : Type} (f : α → Nat) (r : α) : List α → List α
  | [] => [r]
  | x :: xs => if f x < f r then x :: insertByKey f r xs else r :: x :: xs

/-- Stable insertion sort with respect to a numeric key. -/
def sortByKey {α : Type} (f : α → Nat) : List α → List α
  | [] => []
  | x :: xs => insertByKey f x (sortByKey f xs)

/-- Stable sort by `order`, modelling `arr.sort((a, b) => (a.order || 0) - (b.order || 0))`. -/
def sortByOrder {α : Type} : List (Rec α) → List (Rec α) :=
  sortByKey (fun r => r.order)

/-- Replace the order of the record with the given primary key, modelling
`store.put` of a record read back with a modified `order`. -/
def setOrder {α : Type} (i ord : Nat) (rs : List (Rec α)) : List (Rec α) :=
  rs.map (fun r => if r.id = i then { r with order := ord } else r)

/-- Single step of the positional bulk reorder shared by `reorderAlbums` /
`reorderPhotos` / `reorderEssays` / `reorderVideos`: for one
index/id pair, if a record with that id exists and its payload satisfies
the scope guard `g` (the photo guard checks `photo.albumId === albumId`,
a payload field; the others accept everything), the record's `order`
becomes the id's 0-based index; otherwise the pair is silently skipped. -/
def reorderStep {α : Type} (g : α → Bool) (acc : List (Rec α)) (p : Nat × Nat) :
    List (Rec α) :=
  match acc.find? (fun r => r.id = p.2) with
  | some r => if g r.payload then setOrder p.2 p.1 acc else acc
  | none => acc

/-- Fold of `reorderStep` over the 0-based enumeration of the id list. -/
def reorderScope {α : Type} (g : α → Bool) (idsInOrder : List Nat)
    (rs : List (Rec α)) : List (Rec α) :=
  idsInOrder.enum.foldl (reorderStep g) rs

/-- Album payload: `{name, createdAt}` plus the `updatedAt` stamp written
by `renameAlbum`. -/
structure Album where
  name : String
  createdAt : Nat
  updatedAt : Option Nat
  deriving Repr, DecidableEq

/-- Photo payload: `{albumId, blob, mime, size, createdAt}`. -/
structure Photo where
  albumId : Nat
  blob : JsBlob
  mime : String
  size : Nat
  createdAt : Nat
  deriving Repr, DecidableEq

/-- Essay payload: `{title, pdfBlob, mime, size, createdAt}` plus the
`updatedAt` stamp written by `renameEssay`. -/
structure Essay where
  title : String
  pdfBlob : JsBlob
  mime : String
  size : Nat
  createdAt : Nat
  updatedAt : Option Nat
  deriving Repr, DecidableEq

/-- Video payload: `{provider, url, embedId, title, createdAt}`. -/
structure Video where
  provider : String
  url : String
  embedId : String
  title : Option String
  createdAt : Nat
  deriving Repr, DecidableEq

/-- Asset record: `{key, blob, mime, updatedAt}`, keyed by `key`. -/
structure AssetRec where
  key : String
  blob : JsBlob
  mime : String
  updatedAt : Nat
  deriving Repr, DecidableEq

/-- State of the local `Database`: the five object stores, the four
auto-increment key generators, and the modelled wall clock. -/
structure DB where
  assets : List AssetRec
  albums : List (Rec Album)
  photos : List (Rec Photo)
  essays : List (Rec Essay)
  videos : List (Rec Video)
  nextAlbumId : Nat
  nextPhotoId : Nat
  nextEssayId : Nat
  nextVideoId : Nat
  clock : Nat
  deriving Repr, DecidableEq

/-- Freshly created database: empty stores, key generators at 1. -/
def freshDB (clock : Nat) : DB :=
  ⟨[], [], [], [], [], 1, 1, 1, 1, clock⟩

/-- Errors thrown by the local store, one constructor per distinct
`new Error(...)` message in the source. -/
inductive DbErr where
  | albumNotFound
  | essayNotFound
  | invalidVideoUrl
  | incompatibleVersion
  deriving Repr, DecidableEq

namespace Db

/-- Database.putAsset: upsert `{key, blob: file, mime: file.type, updatedAt}`;
`store.put` resolves with the key. -/
def putAsset (s : DB) (key : String) (file : JsBlob) : String × DB :=
  let assetData : AssetRec := ⟨key, file, file.type, s.clock⟩
  let assets :=
    if s.assets.any (fun a => a.key = key) then
      s.assets.map (fun a => if a.key = key then assetData else a)
    else
      s.assets ++ [assetData]
  (key, { s with assets := assets })

/-- Database.getAsset: primary-key lookup. -/
def getAsset (s : DB) (key : String) : Option AssetRec :=
  s.assets.find? (fun a => a.key = key)

/-- Database.getAllAlbums: `getAll` (key order) then stable sort by order. -/
def getAllAlbums (s : DB) : List (Rec Album) :=
  sortByOrder s.albums

/-- Database.createAlbum: order is max existing order (over `getAllAlbums`)
plus one; `store.add` appends with the generated key and resolves with it. -/
def createAlbum (s : DB) (name : String) : Nat × DB :=
  let albums := getAllAlbums s
  let mo := if albums.length > 0 then maxOrder albums else 0
  let albumRec : Rec Album := ⟨s.nextAlbumId, mo + 1, ⟨name, s.clock, none⟩⟩
  (s.nextAlbumId,
    { s with albums := s.albums ++ [albumRec], nextAlbumId := s.nextAlbumId + 1 })

/-- Database.renameAlbum: rejects with `Album not found` when the id is
absent, else updates `name` and `updatedAt` in place. -/
def renameAlbum (s : DB) (i : Nat) (name : String) : Except DbErr Nat × DB :=
  match s.albums.find? (fun r => r.id = i) with
  | none => (.error .albumNotFound, s)
  | some _ =>
    (.ok i,
      { s with
        albums := s.albums.map (fun r =>
          if r.id = i then
            { r with payload := { r.payload with name := name, updatedAt := some s.clock } }
          else r) })

/-- Database.reorderAlbums: positional reassignment, no scope guard. -/
def reorderAlbums (s : DB) (idsInOrder : List Nat) : DB :=
  { s with albums := reorderScope (fun _ => true) idsInOrder s.albums }

/-- Database.getPhotosByAlbum: `albumId` index `getAll` (records with that
album id, in primary-key order) then stable sort by order. -/
def getPhotosByAlbum (s : DB) (albumId : Nat) : List (Rec Photo) :=
  sortByOrder (s.photos.filter (fun r => r.payload.albumId = albumId))

/-- Database.addPhoto: order is max existing order within the album plus
one; stores `{albumId, blob, mime: file.type, size: file.size, order, createdAt}`. -/
def addPhoto (s : DB) (albumId : Nat) (file : JsBlob) : Nat × DB :=
  let photos := getPhotosByAlbum s albumId
  let mo := if photos.length > 0 then maxOrder photos else 0
  let photoRec : Rec Photo :=
    ⟨s.nextPhotoId, mo + 1, ⟨albumId, file, file.type, file.data.length, s.clock⟩⟩
  (s.nextPhotoId,
    { s with photos := s.photos ++ [photoRec], nextPhotoId := s.nextPhotoId + 1 })

/-- Database.removePhoto: delete by primary key. -/
def removePhoto (s : DB) (photoId : Nat) : DB :=
  { s with photos := s.photos.filter (fun r => r.id ≠ photoId) }

/-- Database.reorderPhotos: positional reassignment, guarded by
`photo.albumId === albumId`. -/
def reorderPhotos (s : DB) (albumId : Nat) (idsInOrder : List Nat) : DB :=
  { s with
    photos := reorderScope (fun p => p.albumId = albumId) idsInOrder s.photos }

/-- Single awaited sub-operation of `deleteAlbum`: one child-photo removal
or the final album-record deletion. -/
inductive DelStep where
  | photo (photoId : Nat)
  | album (albumId : Nat)
  deriving Repr, DecidableEq

/-- Application of one `deleteAlbum` sub-operation. -/
def applyDelStep (s : DB) : DelStep → DB
  | .photo pid => removePhoto s pid
  | .album aid => { s with albums := s.albums.filter (fun r => r.id ≠ aid) }

/-- Sequence of awaited sub-operations performed by Database.deleteAlbum:
`removePhoto` for each photo of the album (in `getPhotosByAlbum` order),
then the deletion of the album record itself. -/
def deleteAlbumTrace (s : DB) (i : Nat) : List DelStep :=
  (getPhotosByAlbum s i).map (fun p => DelStep.photo p.id) ++ [DelStep.album i]

/-- Database.deleteAlbum: runs the trace to completion. -/
def deleteAlbum (s : DB) (i : Nat) : DB :=
  (deleteAlbumTrace s i).foldl applyDelStep s

/-- Database.getAllEssays. -/
def getAllEssays (s : DB) : List (Rec Essay) :=
  sortByOrder s.essays

/-- Database.addEssay: stores `{title, pdfBlob: file, mime: 'application/pdf',
size: file.size, order, createdAt}`. -/
def addEssay (s : DB) (file : JsBlob) (title : String) : Nat × DB :=
  let essays := getAllEssays s
  let mo := if essays.length > 0 then maxOrder essays else 0
  let essayRec : Rec Essay :=
    ⟨s.nextEssayId, mo + 1, ⟨title, file, "application/pdf", file.data.length, s.clock, none⟩⟩
  (s.nextEssayId,
    { s with essays := s.essays ++ [essayRec], nextEssayId := s.nextEssayId + 1 })

/-- Database.renameEssay: rejects with `Essay not found` when the id is
absent, else updates `title` and `updatedAt` in place. -/
def renameEssay (s : DB) (i : Nat) (title : String) : Except DbErr Nat × DB :=
  match s.essays.find? (fun r => r.id = i) with
  | none => (.error .essayNotFound, s)
  | some _ =>
    (.ok i,
      { s with
        essays := s.essays.map (fun r =>
          if r.id = i then
            { r with payload := { r.payload with title := title, updatedAt := some s.clock } }
          else r) })

/-- Database.deleteEssay: delete by primary key. -/
def deleteEssay (s : DB) (i : Nat) : DB :=
  { s with essays := s.essays.filter (fun r => r.id ≠ i) }

/-- Database.reorderEssays. -/
def reorderEssays (s : DB) (idsInOrder : List Nat) : DB :=
  { s with essays := reorderScope (fun _ => true) idsInOrder s.essays }

/-- Database.getAllVideos. -/
def getAllVideos (s : DB) : List (Rec Video) :=
  sortByOrder s.videos

/-- Database.deleteVideo: delete by primary key. -/
def deleteVideo (s : DB) (i : Nat) : DB :=
  { s with videos := s.videos.filter (fun r => r.id ≠ i) }

/-- Database.reorderVideos. -/
def reorderVideos (s : DB) (idsInOrder : List Nat) : DB :=
  { s with videos := reorderScope (fun _ => true) idsInOrder s.videos }

end Db

/-! ### Blob codec

`blobToBase64` delegates to the browser's `FileReader.readAsDataURL` and
strips the data-URL header, producing the standard base64 encoding of the
blob's bytes; `base64ToBlob` decodes via the browser's `atob` and collects
`charCodeAt` values.  The platform codec (RFC 4648 base64 with `=`
padding) is embedded explicitly. -/

/-- Base64 alphabet in index order. -/
def b64Alphabet : String :=
  "ABCDEFGHIJKLMNOPQRSTUVWXYZabcdefghijklmnopqrstuvwxyz0123456789+/"

/-- Character for a six-bit group. -/
def encChar (k : Nat) : Char :=
  b64Alphabet.data.getD k 'A'

/-- Six-bit group for an alphabet character. -/
def decChar (c : Char) : Nat :=
  b64Alphabet.data.findIdx (fun x => x = c)

/-- Base64 encoding of a byte list (the text `blobToBase64` resolves with). -/
def b64Encode : List Nat → List Char
  | [] => []
  | [a] => [encChar (a / 4), encChar (a % 4 * 16), '=', '=']
  | [a, b] => [encChar (a / 4), encChar (a % 4 * 16 + b / 16), encChar (b % 16 * 4), '=']
  | a :: b :: c :: rest =>
    encChar (a / 4) :: encChar (a % 4 * 16 + b / 16) ::
      encChar (b % 16 * 4 + c / 64) :: encChar (c % 64) :: b64Encode rest

/-- Base64 decoding to a byte list (the loop in `base64ToBlob` over the
binary string returned by `atob`): the input is consumed four characters
at a time, a `=`-padded or truncated final group yielding one or two
bytes. -/
def b64Decode : List Char → List Nat
  | [] => []
  | [w, x] => [decChar w * 4 + decChar x / 16]
  | [w, x, y] => [decChar w * 4 + decChar x / 16, decChar x % 16 * 16 + decChar y / 4]
  | w :: x :: y :: z :: rest =>
    if y = '=' then [decChar w * 4 + decChar x / 16]
    else if z = '=' then
      [decChar w * 4 + decChar x / 16, decChar x % 16 * 16 + decChar y / 4]
    else
      (decChar w * 4 + decChar x / 16) :: (decChar x % 16 * 16 + decChar y / 4) ::
        (decChar y % 4 * 64 + decChar z) :: b64Decode rest
  | _ => []

/-! ### Video URL recognition

`Database.parseVideoUrl` applies two JavaScript regular expressions with
`url.match`: first the YouTube pattern, then the Vimeo pattern.  The
embedding hand-compiles each regex into a backtracking matcher: a matcher
consumes a prefix of the input and returns the possible remaining
suffixes in backtracking priority order (greedy quantifiers yield the
longest consumption first, alternatives are tried left to right), and
`url.match` scans candidate start positions left to right. -/

/-- Suffix-list matcher: possible remainders after matching a prefix,
in backtracking priority order. -/
def Matcher : Type := List Char → List (List Char)

/-- Semantics of the JavaScript `.` metacharacter (no `s` flag): any
character except a line terminator. -/
def jsDot (c : Char) : Bool :=
  !(c = '\n' || c = '\r' || c = Char.ofNat 0x2028 || c = Char.ofNat 0x2029)

/-- Semantics of the JavaScript `\s` character class. -/
def jsWs (c : Char) : Bool :=
  c = ' ' || c = '\t' || c = '\n' || c = '\r' ||
  c = Char.ofNat 0x0b || c = Char.ofNat 0x0c ||
  c = Char.ofNat 0xa0 || c = Char.ofNat 0x1680 ||
  (0x2000 ≤ c.toNat && c.toNat ≤ 0x200a) ||
  c = Char.ofNat 0x2028 || c = Char.ofNat 0x2029 ||
  c = Char.ofNat 0x202f || c = Char.ofNat 0x205f ||
  c = Char.ofNat 0x3000 || c = Char.ofNat 0xfeff

/-- Match a single character satisfying a class predicate. -/
def mCls (p : Char → Bool) : Matcher :=
  fun i => match i with
  | [] => []
  | x :: rest => if p x then [rest] else []

/-- Match one literal character. -/
def mChar (c : Char) : Matcher :=
  mCls (fun x => x = c)

/-- Match a literal character sequence. -/
def mStr : List Char → Matcher
  | [] => fun i => [i]
  | c :: cs => fun i =>
    match i with
    | [] => []
    | x :: rest => if x = c then mStr cs rest else []

/-- Sequencing of matchers (haystack suffixes explored in priority order). -/
def mSeq (m1 m2 : Matcher) : Matcher :=
  fun i => (m1 i).flatMap m2

/-- Alternation: left alternative has priority. -/
def mAlt (m1 m2 : Matcher) : Matcher :=
  fun i => m1 i ++ m2 i

/-- Greedy option `(?:...)?`: with-the-piece has priority over without. -/
def mOpt (m : Matcher) : Matcher :=
  fun i => m i ++ [i]

/-- Greedy `cls*`: each quantifier element is a single character class, so
the candidate remainders are the drops of the maximal class run, longest
consumption first. -/
def starCls (p : Char → Bool) : Matcher :=
  fun i =>
    let m := (i.takeWhile p).length
    (List.range (m + 1)).map (fun j => i.drop (m - j))

/-- Greedy `cls+`: like `starCls` but consuming at least one character. -/
def plusCls (p : Char → Bool) : Matcher :=
  fun i =>
    let m := (i.takeWhile p).length
    (List.range m).map (fun j => i.drop (m - j))

/-- Character class of the YouTube id capture group, the negated class
in the source pattern. -/
def ytCap (c : Char) : Bool :=
  !(c = '"' || c = '&' || c = '?' || c = '/' || jsWs c)

/-- Everything of the YouTube regex before the capture group:
the source pattern is
`(?:youtube\.com\/(?:[^\/]+\/.+\/|(?:v|e(?:mbed)?)\/|.*[?&]v=)|youtu\.be\/)`. -/
def ytPrefix : Matcher :=
  mAlt
    (mSeq (mStr ("youtube.com/".data))
      (mAlt
        (mSeq (plusCls (fun c => !(c = '/')))
          (mSeq (mChar '/') (mSeq (plusCls jsDot) (mChar '/'))))
        (mAlt
          (mSeq (mAlt (mChar 'v') (mSeq (mChar 'e') (mOpt (mStr ("mbed".data)))))
            (mChar '/'))
          (mSeq (starCls jsDot)
            (mSeq (mCls (fun c => c = '?' || c = '&')) (mStr ("v=".data)))))))
    (mStr ("youtu.be/".data))

/-- Attempt of the full YouTube pattern at one start position: the first
prefix remainder (in backtracking order) that begins with eleven capture
class characters yields the captured id. -/
def ytTryAt (i : List Char) : Option (List Char) :=
  (ytPrefix i).findSome? (fun t =>
    if 11 ≤ t.length && (t.take 11).all ytCap then some (t.take 11) else none)

/-- Scan of start positions, left to right, for the YouTube pattern. -/
def ytScan : List Char → Option (List Char)
  | [] => ytTryAt []
  | c :: rest =>
    match ytTryAt (c :: rest) with
    | some cap => some cap
    | none => ytScan rest

/-- Attempt of the Vimeo pattern `(?:vimeo\.com\/)([0-9]+)` at one start
position: the literal prefix followed by a maximal non-empty digit run. -/
def vimeoTryAt (i : List Char) : Option (List Char) :=
  (mStr ("vimeo.com/".data) i).findSome? (fun t =>
    let ds := t.takeWhile Char.isDigit
    if 0 < ds.length then some ds else none)

/-- Scan of start positions, left to right, for the Vimeo pattern. -/
def vimeoScan : List Char → Option (List Char)
  | [] => vimeoTryAt []
  | c :: rest =>
    match vimeoTryAt (c :: rest) with
    | some cap => some cap
    | none => vimeoScan rest

/-- Result shape of `Database.parseVideoUrl` (its `title` is always `null`). -/
structure VideoInfo where
  provider : String
  embedId : String
  title : Option String
  deriving Repr, DecidableEq

/-- Database.parseVideoUrl: YouTube pattern first, then Vimeo, else `null`. -/
def parseVideoUrl (url : String) : Option VideoInfo :=
  match ytScan url.data with
  | some cap => some ⟨"youtube", String.mk cap, none⟩
  | none =>
    match vimeoScan url.data with
    | some ds => some ⟨"vimeo", String.mk ds, none⟩
    | none => none

namespace Db

/-- Database.addVideo: throws `Invalid video URL` before touching the
store when the URL parses to neither provider; otherwise stores
`{provider, url, embedId, title, order, createdAt}` with the usual order
assignment. -/
def addVideo (s : DB) (url : String) : Except DbErr Nat × DB :=
  match parseVideoUrl url with
  | none => (.error .invalidVideoUrl, s)
  | some info =>
    let videos := getAllVideos s
    let mo := if videos.length > 0 then maxOrder videos else 0
    let videoRec : Rec Video :=
      ⟨s.nextVideoId, mo + 1, ⟨info.provider, url, info.embedId, info.title, s.clock⟩⟩
    (.ok s.nextVideoId,
      { s with videos := s.videos ++ [videoRec], nextVideoId := s.nextVideoId + 1 })

/-- Database.clearAllData: clears the five object stores; `clear()` does
not reset the auto-increment key generators. -/
def clearAllData (s : DB) : DB :=
  { s with assets := [], albums := [], photos := [], essays := [], videos := [] }

end Db

/-- Asset entry of an export document: `{key, data, mime, updatedAt}`
with the blob inlined as base64 text. -/
structure AssetExport where
  key : String
  data : List Char
  mime : String
  updatedAt : Nat
  deriving Repr, DecidableEq

/-- Photo entry of an export document: the spread of the stored record
with `blob` nulled out and base64 `data` added. -/
structure PhotoExport where
  id : Nat
  albumId : Nat
  mime : String
  size : Nat
  order : Nat
  createdAt : Nat
  data : List Char
  deriving Repr, DecidableEq

/-- Essay entry of an export document. -/
structure EssayExport where
  id : Nat
  title : String
  mime : String
  size : Nat
  order : Nat
  createdAt : Nat
  updatedAt : Option Nat
  data : List Char
  deriving Repr, DecidableEq

/-- Export document: `{version, timestamp, assets, albums, photos, essays,
videos}`.  `version` is an `Option` so that a payload with the field
absent is expressible (`importAll` accepts arbitrary parsed JSON). -/
structure ExportDoc where
  version : Option Nat
  timestamp : Nat
  assets : List AssetExport
  albums : List (Rec Album)
  photos : List PhotoExport
  essays : List EssayExport
  videos : List (Rec Video)
  deriving Repr, DecidableEq

namespace Db

/-- Database.exportAll: snapshot with version tag 1, the three known asset
keys (present ones only), albums as stored, photos grouped album by album
(albums in listing order, photos in listing order within each album) with
base64 data, essays with base64 data, and videos verbatim. -/
def exportAll (s : DB) : ExportDoc :=
  { version := some 1
    timestamp := s.clock
    assets := (["backgroundImage", "headerLogo", "favicon"]).filterMap (fun k =>
      (getAsset s k).map (fun a => ⟨a.key, b64Encode a.blob.data, a.mime, a.updatedAt⟩))
    albums := getAllAlbums s
    photos := (getAllAlbums s).flatMap (fun al =>
      (getPhotosByAlbum s al.id).map (fun p =>
        ⟨p.id, p.payload.albumId, p.payload.mime, p.payload.size, p.order,
          p.payload.createdAt, b64Encode p.payload.blob.data⟩))
    essays := (getAllEssays s).map (fun e =>
      ⟨e.id, e.payload.title, e.payload.mime, e.payload.size, e.order,
        e.payload.createdAt, e.payload.updatedAt, b64Encode e.payload.pdfBlob.data⟩)
    videos := getAllVideos s }

/-- Old-to-new album id correspondence built by `importAll`: old albums
zipped positionally with the re-listed new albums; the JavaScript object
assignment means a duplicated old id keeps the last binding. -/
def albumIdLookup (pairs : List (Rec Album × Rec Album)) (oldId : Nat) : Option Nat :=
  pairs.reverse.findSome? (fun p => if p.1.id = oldId then some p.2.id else none)

/-- Video replay loop of `importAll`: each stored video is re-created
from its URL via `addVideo`; an `addVideo` rejection propagates and
aborts the remaining iterations. -/
def importVideos : List (Rec Video) → DB → Except DbErr Unit × DB
  | [], s => (.ok (), s)
  | v :: rest, s =>
    match addVideo s v.payload.url with
    | (.ok _, s1) => importVideos rest s1
    | (.error e, s1) => (.error e, s1)

/-- Asset replay loop of `importAll`: entries with a truthy (non-empty)
base64 text are decoded and upserted. -/
def importAssets (entries : List AssetExport) (s : DB) : DB :=
  entries.foldl (fun acc a =>
    if a.data ≠ [] then (putAsset acc a.key ⟨b64Decode a.data, a.mime⟩).2 else acc) s

/-- Album replay loop of `importAll`: each exported album is re-created
from its name alone. -/
def importAlbums (entries : List (Rec Album)) (s : DB) : DB :=
  entries.foldl (fun acc al => (createAlbum acc al.payload.name).2) s

/-- Photo replay loop of `importAll`: an entry is re-created when its
base64 text is non-empty and the old-to-new album lookup yields a truthy
id (JavaScript `photo.data && albumIdMap[photo.albumId]`); `getD 0`
renders both a missing and a zero mapping falsy. -/
def importPhotos (amap : Nat → Option Nat) (entries : List PhotoExport) (s : DB) : DB :=
  entries.foldl (fun acc p =>
    let nid := (amap p.albumId).getD 0
    if p.data ≠ ([] : List Char) ∧ nid ≠ 0 then
      (addPhoto acc nid ⟨b64Decode p.data, p.mime⟩).2
    else acc) s

/-- Essay replay loop of `importAll`. -/
def importEssays (entries : List EssayExport) (s : DB) : DB :=
  entries.foldl (fun acc e =>
    if e.data ≠ [] then (addEssay acc ⟨b64Decode e.data, e.mime⟩ e.title).2 else acc) s

/-- Database.importAll: rejects with `Incompatible data version` when the
payload's `version` is absent or different from 1 (before any mutation),
else clears all stores and replays assets, albums, photos (remapped
through the positional old-to-new album id correspondence), essays, and
videos. -/
def importAll (s : DB) (data : ExportDoc) : Except DbErr Unit × DB :=
  if data.version ≠ some 1 then (.error .incompatibleVersion, s)
  else
    let s1 := importAssets data.assets (clearAllData s)
    let s2 := importAlbums data.albums s1
    let newAlbums := getAllAlbums s2
    let s3 := importPhotos (albumIdLookup (data.albums.zip newAlbums)) data.photos s2
    let s4 := importEssays data.essays s3
    importVideos data.videos s4

/-- Fold of `createAlbum` calls over a list of names (used to state
properties of create sequences). -/
def createAlbums (s : DB) (names : List String) : DB :=
  names.foldl (fun acc n => (createAlbum acc n).2) s

/-- Fold of `addPhoto` calls into one album over a list of files. -/
def addPhotos (s : DB) (albumId : Nat) (files : List JsBlob) : DB :=
  files.foldl (fun acc f => (addPhoto acc albumId f).2) s

/-- Fold of `addPhoto` calls over a list of album-id/file pairs (the
shape of the photo replay during import). -/
def addPhotoSeq (s : DB) (items : List (Nat × JsBlob)) : DB :=
  items.foldl (fun acc it => (addPhoto acc it.1 it.2).2) s

/-- Fold of `addEssay` calls over a list of file/title pairs. -/
def addEssays (s : DB) (items : List (JsBlob × String)) : DB :=
  items.foldl (fun acc it => (addEssay acc it.1 it.2).2) s

/-- Fold of `addVideo` calls over a list of URLs (state threaded through,
results discarded). -/
def addVideos (s : DB) (urls : List String) : DB :=
  urls.foldl (fun acc u => (addVideo acc u).2) s

end Db

/-! ### Logical record views

Projections of a store onto its logical content as seen through the
listing reads: names, titles, urls, blob bytes and MIME types, in listing
order, with the physical ids and order values abstracted away.  They are
the currency of the export/import round-trip statement. -/

/-- Album names in listing order. -/
def albumNamesView (s : DB) : List String :=
  (Db.getAllAlbums s).map (fun r => r.payload.name)

/-- Per-album photo content (blob bytes and MIME type) in listing order,
albums in listing order. -/
def photosView (s : DB) : List (List (List Nat × String)) :=
  (Db.getAllAlbums s).map (fun al =>
    (Db.getPhotosByAlbum s al.id).map (fun p => (p.payload.blob.data, p.payload.mime)))

/-- Essay titles and PDF bytes in listing order. -/
def essaysView (s : DB) : List (String × List Nat) :=
  (Db.getAllEssays s).map (fun e => (e.payload.title, e.payload.pdfBlob.data))

/-- Video urls, providers and embed ids in listing order. -/
def videosView (s : DB) : List (String × String × String) :=
  (Db.getAllVideos s).map (fun v =>
    (v.payload.url, v.payload.provider, v.payload.embedId))

/-- Content of one asset slot: blob bytes and MIME type. -/
def assetView (s : DB) (key : String) : Option (List Nat × String) :=
  (Db.getAsset s key).map (fun a => (a.blob.data, a.mime))

/-- Well-formedness of a store for the export/import round trip: album
ids are distinct, every photo/essay/asset blob is non-empty with byte
values below 256, and every stored video URL still parses to the stored
provider and embed id (all of which hold in states produced through the
API). -/
def WFexport (s : DB) : Prop :=
  (s.albums.map (fun r => r.id)).Nodup ∧
  (∀ p ∈ s.photos, p.payload.blob.data ≠ [] ∧ ∀ b ∈ p.payload.blob.data, b < 256) ∧
  (∀ e ∈ s.essays, e.payload.pdfBlob.data ≠ [] ∧ ∀ b ∈ e.payload.pdfBlob.data, b < 256) ∧
  (∀ a ∈ s.assets, a.blob.data ≠ [] ∧ ∀ b ∈ a.blob.data, b < 256) ∧
  (∀ v ∈ s.videos, parseVideoUrl v.payload.url =
    some ⟨v.payload.provider, v.payload.embedId, none⟩)

/-- Last positional assignment for an id in an index/id pair list (the
JavaScript loop lets a later occurrence of the same id win). -/
def lastAssign (pairs : List (Nat × Nat)) (i : Nat) : Option Nat :=
  ((pairs.filter (fun p => p.2 = i)).map (fun p => p.1)).getLast?

/-- Small concrete store used by witnesses: one album (id 1) holding two
photos (ids 1 and 2), key generators ahead of the used ids. -/
def exampleStore : DB :=
  ⟨[], [⟨1, 1, ⟨"A", 0, none⟩⟩],
   [⟨1, 1, ⟨1, ⟨[0], "image/png"⟩, "image/png", 1, 0⟩⟩,
    ⟨2, 2, ⟨1, ⟨[1], "image/png"⟩, "image/png", 1, 0⟩⟩],
   [], [], 2, 3, 1, 1, 0⟩

/-- Concrete export document with a version tag different from the
current schema version. -/
def badVersionDoc : ExportDoc :=
  ⟨some 2, 0, [], [], [], [], []⟩

/-- A store whose single album has been bulk-reordered: `reorderAlbums`
assigns 0-based positional order values, so the album's `order` is `0`,
while the re-creation during import assigns orders starting at `1`. -/
def reorderedStore : DB :=
  Db.reorderAlbums (Db.createAlbum (freshDB 0) ("A")).2 [1]

/-- The three asset keys enumerated by `exportAll`. -/
def assetKeys : List String :=
  ["backgroundImage", "headerLogo", "favicon"]

/-- The asset-entry shape produced by `exportAll` (named form of the
inline object literal, for use in round-trip statements). -/
def expAsset (a : AssetRec) : AssetExport :=
  ⟨a.key, b64Encode a.blob.data, a.mime, a.updatedAt⟩

/-- The asset record written back by `importAll` for an export entry
(blob decoded from base64, `updatedAt` from the import-time clock). -/
def impAsset (c : Nat) (a : AssetExport) : AssetRec :=
  ⟨a.key, ⟨b64Decode a.data, a.mime⟩, a.mime, c⟩

/-- The photo-entry shape produced by `exportAll`. -/
def expPhoto (p : Rec Photo) : PhotoExport :=
  ⟨p.id, p.payload.albumId, p.payload.mime, p.payload.size, p.order,
    p.payload.createdAt, b64Encode p.payload.blob.data⟩

/-- The essay-entry shape produced by `exportAll`. -/
def expEssay (e : Rec Essay) : EssayExport :=
  ⟨e.id, e.payload.title, e.payload.mime, e.payload.size, e.order,
    e.payload.createdAt, e.payload.updatedAt, b64Encode e.payload.pdfBlob.data⟩

/-! ### Remote mirror client

Model of the `FirebaseDatabase` wrapper.  The Firestore collections and
the storage bucket are modelled as shadow-document lists (an uploaded
file and its `downloadURL` indirection collapse to the blob carried by
the shadow document).  Each method whose body mirrors to the cloud inside
a `try { ... } catch { ... }` block takes a `remoteOk : Bool` argument:
the outcome of that remote interaction, `false` meaning some remote call
threw (the catch path).  Wall-clock reads (`Date.now()`) are modelled by
the local database's `clock` field. -/

/-- Firestore shadow of an album: `{localId, name, order, createdAt, photos: []}`. -/
structure RAlbumDoc where
  localId : Nat
  name : String
  order : Nat
  createdAt : Nat
  deriving Repr, DecidableEq

/-- Firestore shadow of an essay (with the uploaded PDF behind its
`downloadURL` modelled as the blob itself). -/
structure REssayDoc where
  localId : Nat
  title : String
  blob : JsBlob
  mime : String
  size : Nat
  order : Nat
  createdAt : Nat
  deriving Repr, DecidableEq

/-- Firestore shadow of a video. -/
structure RVideoDoc where
  localId : Nat
  provider : String
  url : String
  embedId : String
  title : Option String
  order : Nat
  createdAt : Nat
  deriving Repr, DecidableEq

/-- Firestore asset document (with the uploaded file behind its
`downloadURL` modelled as the blob itself). -/
structure RAssetDoc where
  key : String
  blob : JsBlob
  mime : String
  size : Nat
  updatedAt : Nat
  deriving Repr, DecidableEq

/-- Remote document store: one shadow collection per mirrored local
collection. -/
structure Remote where
  albums : List RAlbumDoc
  essays : List REssayDoc
  videos : List RVideoDoc
  assets : List RAssetDoc
  deriving Repr, DecidableEq

/-- State of the `FirebaseDatabase` wrapper: the wrapped local store, the
`syncEnabled` flag, and the remote document store. -/
structure Fb where
  localDb : DB
  syncEnabled : Bool
  remote : Remote
  deriving Repr, DecidableEq

namespace Fb

/-- FirebaseDatabase.putAsset: local write first; the method returns
`undefined` on every path (the local store's key result is discarded,
hence the `Option` result that is always `none`); with sync enabled and a
healthy remote it uploads the file and upserts the asset document, and a
remote failure is caught. -/
def putAsset (remoteOk : Bool) (fb : Fb) (key : String) (file : JsBlob) :
    Option String × Fb :=
  let l := (Db.putAsset fb.localDb key file).2
  let fb1 := { fb with localDb := l }
  if fb.syncEnabled && remoteOk then
    let assetDoc : RAssetDoc := ⟨key, file, file.type, file.data.length, l.clock⟩
    let assets :=
      if fb1.remote.assets.any (fun a => a.key = key) then
        fb1.remote.assets.map (fun a => if a.key = key then assetDoc else a)
      else fb1.remote.assets ++ [assetDoc]
    (none, { fb1 with remote := { fb1.remote with assets := assets } })
  else (none, fb1)

/-- FirebaseDatabase.getAsset: with sync enabled and a healthy remote,
reads the asset document, refreshes the local cache copy of the blob, and
returns the cloud record; when the document is absent, the remote read
fails, or sync is disabled, it falls back to the local read. -/
def getAsset (remoteOk : Bool) (fb : Fb) (key : String) :
    Option AssetRec × Fb :=
  if fb.syncEnabled && remoteOk then
    match fb.remote.assets.find? (fun a => a.key = key) with
    | some d =>
      let l := (Db.putAsset fb.localDb key d.blob).2
      (some ⟨d.key, d.blob, d.mime, d.updatedAt⟩, { fb with localDb := l })
    | none => (Db.getAsset fb.localDb key, fb)
  else (Db.getAsset fb.localDb key, fb)

/-- FirebaseDatabase.createAlbum: local create first, its id returned on
every path; with sync enabled it best-effort adds a shadow document whose
`order` is `Date.now()`. -/
def createAlbum (remoteOk : Bool) (fb : Fb) (name : String) : Nat × Fb :=
  let (localId, l) := Db.createAlbum fb.localDb name
  let fb1 := { fb with localDb := l }
  if fb.syncEnabled && remoteOk then
    (localId,
      { fb1 with
        remote :=
          { fb1.remote with
            albums := fb1.remote.albums ++ [⟨localId, name, l.clock, l.clock⟩] } })
  else (localId, fb1)

/-- FirebaseDatabase.getAllAlbums: with sync enabled and a healthy remote,
returns the shadow documents sorted by order; otherwise the local listing. -/
def getAllAlbums (remoteOk : Bool) (fb : Fb) :
    (List RAlbumDoc ⊕ List (Rec Album)) × Fb :=
  if fb.syncEnabled && remoteOk then
    (.inl (sortByKey (fun d => d.order) fb.remote.albums), fb)
  else (.inr (Db.getAllAlbums fb.localDb), fb)

/-- FirebaseDatabase.deleteAlbum: local cascading delete first; with sync
enabled it best-effort deletes every shadow document whose `localId`
matches. -/
def deleteAlbum (remoteOk : Bool) (fb : Fb) (i : Nat) : Fb :=
  let l := Db.deleteAlbum fb.localDb i
  let fb1 := { fb with localDb := l }
  if fb.syncEnabled && remoteOk then
    { fb1 with
      remote :=
        { fb1.remote with albums := fb1.remote.albums.filter (fun d => d.localId ≠ i) } }
  else fb1

/-- FirebaseDatabase.addVideo: local create first (a local rejection for
an unparseable URL propagates); with sync enabled it best-effort adds a
shadow document re-deriving the video info from the URL. -/
def addVideo (remoteOk : Bool) (fb : Fb) (url : String) : Except DbErr Nat × Fb :=
  match Db.addVideo fb.localDb url with
  | (.error e, l) => (.error e, { fb with localDb := l })
  | (.ok localId, l) =>
    let fb1 := { fb with localDb := l }
    if fb.syncEnabled && remoteOk then
      match parseVideoUrl url with
      | some info =>
        (.ok localId,
          { fb1 with
            remote :=
              { fb1.remote with
                videos := fb1.remote.videos ++
                  [⟨localId, info.provider, url, info.embedId, info.title, l.clock, l.clock⟩] } })
      | none => (.ok localId, fb1)
    else (.ok localId, fb1)

/-- FirebaseDatabase.getAllVideos: cloud listing sorted by order when
available, else the local listing. -/
def getAllVideos (remoteOk : Bool) (fb : Fb) :
    (List RVideoDoc ⊕ List (Rec Video)) × Fb :=
  if fb.syncEnabled && remoteOk then
    (.inl (sortByKey (fun d => d.order) fb.remote.videos), fb)
  else (.inr (Db.getAllVideos fb.localDb), fb)

/-- FirebaseDatabase.deleteVideo: local delete first; best-effort remote
deletion of all matching shadows. -/
def deleteVideo (remoteOk : Bool) (fb : Fb) (i : Nat) : Fb :=
  let l := Db.deleteVideo fb.localDb i
  let fb1 := { fb with localDb := l }
  if fb.syncEnabled && remoteOk then
    { fb1 with
      remote :=
        { fb1.remote with videos := fb1.remote.videos.filter (fun d => d.localId ≠ i) } }
  else fb1

/-- FirebaseDatabase.addEssay: local create first, its id returned on
every path; with sync enabled it best-effort uploads the PDF and adds a
shadow document. -/
def addEssay (remoteOk : Bool) (fb : Fb) (file : JsBlob) (title : String) : Nat × Fb :=
  let (localId, l) := Db.addEssay fb.localDb file title
  let fb1 := { fb with localDb := l }
  if fb.syncEnabled && remoteOk then
    (localId,
      { fb1 with
        remote :=
          { fb1.remote with
            essays := fb1.remote.essays ++
              [⟨localId, title, file, "application/pdf", file.data.length, l.clock, l.clock⟩] } })
  else (localId, fb1)

/-- FirebaseDatabase.getAllEssays: cloud listing (each with its fetched
blob) sorted by order when available, else the local listing. -/
def getAllEssays (remoteOk : Bool) (fb : Fb) :
    (List REssayDoc ⊕ List (Rec Essay)) × Fb :=
  if fb.syncEnabled && remoteOk then
    (.inl (sortByKey (fun d => d.order) fb.remote.essays), fb)
  else (.inr (Db.getAllEssays fb.localDb), fb)

/-- FirebaseDatabase.deleteEssay: local delete first; best-effort remote
deletion (storage object and document) of all matching shadows. -/
def deleteEssay (remoteOk : Bool) (fb : Fb) (i : Nat) : Fb :=
  let l := Db.deleteEssay fb.localDb i
  let fb1 := { fb with localDb := l }
  if fb.syncEnabled && remoteOk then
    { fb1 with
      remote :=
        { fb1.remote with essays := fb1.remote.essays.filter (fun d => d.localId ≠ i) } }
  else fb1

/-- FirebaseDatabase.renameAlbum: pure local passthrough. -/
def renameAlbum (fb : Fb) (i : Nat) (name : String) : Except DbErr Nat × Fb :=
  let (r, l) := Db.renameAlbum fb.localDb i name
  (r, { fb with localDb := l })

/-- FirebaseDatabase.reorderAlbums: pure local passthrough. -/
def reorderAlbums (fb : Fb) (idsInOrder : List Nat) : Fb :=
  { fb with localDb := Db.reorderAlbums fb.localDb idsInOrder }

/-- FirebaseDatabase.addPhoto: pure local passthrough. -/
def addPhoto (fb : Fb) (albumId : Nat) (file : JsBlob) : Nat × Fb :=
  let (r, l) := Db.addPhoto fb.localDb albumId file
  (r, { fb with localDb := l })

/-- FirebaseDatabase.getPhotosByAlbum: pure local passthrough. -/
def getPhotosByAlbum (fb : Fb) (albumId : Nat) : List (Rec Photo) :=
  Db.getPhotosByAlbum fb.localDb albumId

/-- FirebaseDatabase.removePhoto: pure local passthrough. -/
def removePhoto (fb : Fb) (photoId : Nat) : Fb :=
  { fb with localDb := Db.removePhoto fb.localDb photoId }

/-- FirebaseDatabase.reorderPhotos: pure local passthrough. -/
def reorderPhotos (fb : Fb) (albumId : Nat) (idsInOrder : List Nat) : Fb :=
  { fb with localDb := Db.reorderPhotos fb.localDb albumId idsInOrder }

/-- FirebaseDatabase.renameEssay: pure local passthrough. -/
def renameEssay (fb : Fb) (i : Nat) (title : String) : Except DbErr Nat × Fb :=
  let (r, l) := Db.renameEssay fb.localDb i title
  (r, { fb with localDb := l })

/-- FirebaseDatabase.reorderEssays: pure local passthrough. -/
def reorderEssays (fb : Fb) (idsInOrder : List Nat) : Fb :=
  { fb with localDb := Db.reorderEssays fb.localDb idsInOrder }

/-- FirebaseDatabase.reorderVideos: pure local passthrough. -/
def reorderVideos (fb : Fb) (idsInOrder : List Nat) : Fb :=
  { fb with localDb := Db.reorderVideos fb.localDb idsInOrder }

/-- FirebaseDatabase.exportAll: pure local passthrough. -/
def exportAll (fb : Fb) : ExportDoc :=
  Db.exportAll fb.localDb

/-- FirebaseDatabase.parseVideoUrl: pure delegation to the local parser. -/
def parseVideoUrl (url : String) : Option VideoInfo :=
  Portfolio.parseVideoUrl url

/-- One-time bulk push `syncLocalToCloud`: a no-op when sync is disabled;
otherwise, for each local album/essay/video without a shadow correlated
by `localId`, creates the shadow (an essay also needs a truthy `pdfBlob`,
which a local essay record always has); a zero `order` or `createdAt` is
falsy and replaced by the current time.  All remote errors are caught. -/
def syncLocalToCloud (remoteOk : Bool) (fb : Fb) : Fb :=
  if fb.syncEnabled && remoteOk then
    let now := fb.localDb.clock
    let albums := (Db.getAllAlbums fb.localDb).foldl (fun acc al =>
      if acc.any (fun d => d.localId = al.id) then acc
      else acc ++ [⟨al.id, al.payload.name,
        if al.order = 0 then now else al.order,
        if al.payload.createdAt = 0 then now else al.payload.createdAt⟩]) fb.remote.albums
    let essays := (Db.getAllEssays fb.localDb).foldl (fun acc e =>
      if acc.any (fun d => d.localId = e.id) then acc
      else acc ++ [⟨e.id, e.payload.title, e.payload.pdfBlob, e.payload.mime,
        e.payload.size,
        if e.order = 0 then now else e.order,
        if e.payload.createdAt = 0 then now else e.payload.createdAt⟩]) fb.remote.essays
    let videos := (Db.getAllVideos fb.localDb).foldl (fun acc v =>
      if acc.any (fun d => d.localId = v.id) then acc
      else acc ++ [⟨v.id, v.payload.provider, v.payload.url, v.payload.embedId,
        v.payload.title,
        if v.order = 0 then now else v.order,
        if v.payload.createdAt = 0 then now else v.payload.createdAt⟩]) fb.remote.videos
    { fb with remote := ⟨albums, essays, videos, fb.remote.assets⟩ }
  else fb

/-- FirebaseDatabase.importAll: local import first; a local rejection
propagates; on success, with sync enabled, the imported data is pushed by
`syncLocalToCloud` (whose errors are all caught); the local result is
returned. -/
def importAll (remoteOk : Bool) (fb : Fb) (data : ExportDoc) :
    Except DbErr Unit × Fb :=
  let (r, l) := Db.importAll fb.localDb data
  let fb1 := { fb with localDb := l }
  match r with
  | .error e => (.error e, fb1)
  | .ok _ =>
    if fb.syncEnabled then (.ok (), syncLocalToCloud remoteOk fb1)
    else (.ok (), fb1)

end Fb

/-- Concrete export document with a matching version whose video list
holds an unparseable URL followed by a parseable one. -/
def docBadVideo : ExportDoc :=
  ⟨some 1, 0, [], [], [], [],
    [⟨1, 1, ⟨"vimeo", "https://example.com/x", "9", none, 0⟩⟩,
     ⟨2, 2, ⟨"vimeo", "https://vimeo.com/897021152", "897021152", none, 0⟩⟩]⟩

/-- Concrete mirror-client state over a fresh local store, sync disabled,
empty remote. -/
def exampleFb : Fb :=
  ⟨freshDB 0, false, ⟨[], [], [], []⟩⟩

/-- Concrete mirror-client state with sync enabled. -/
def exampleFbOn : Fb :=
  ⟨freshDB 0, true, ⟨[], [], [], []⟩⟩

/-! ## Theorems

Generic lemmas about the stable sort, the bulk reorder and the order
assignment come first; the claim theorems build on them. -/

theorem insertByKey_perm {α : Type} (f : α → Nat) (r : α) (l : List α) :
    (insertByKey f r l).Perm (r :: l) := by
  induction l with
  | nil => simp [insertByKey]
  | cons x xs ih =>
    by_cases h : f x < f r
    · simp only [insertByKey, if_pos h]
      exact (ih.cons x).trans (List.Perm.swap r x xs)
    · simp [insertByKey, if_neg h]

theorem sortByKey_perm {α : Type} (f : α → Nat) (l : List α) :
    (sortByKey f l).Perm l := by
  induction l with
  | nil => simp [sortByKey]
  | cons x xs ih =>
    exact (insertByKey_perm f x (sortByKey f xs)).trans (ih.cons x)

theorem mem_insertByKey {α : Type} {f : α → Nat} {r y : α} {l : List α} :
    y ∈ insertByKey f r l ↔ y = r ∨ y ∈ l := by
  rw [(insertByKey_perm f r l).mem_iff, List.mem_cons]

theorem insertByKey_sorted {α : Type} {f : α → Nat} (r : α) {l : List α}
    (h : List.Sorted (fun a b => f a ≤ f b) l) :
    List.Sorted (fun a b => f a ≤ f b) (insertByKey f r l) := by
  induction l with
  | nil => simp [insertByKey]
  | cons x xs ih =>
    rw [List.sorted_cons] at h
    by_cases hx : f x < f r
    · simp only [insertByKey, if_pos hx]
      rw [List.sorted_cons]
      refine ⟨fun b hb => ?_, ih h.2⟩
      rcases mem_insertByKey.mp hb with rfl | hb
      · exact Nat.le_of_lt hx
      · exact h.1 b hb
    · simp only [insertByKey, if_neg hx]
      rw [List.sorted_cons]
      refine ⟨fun b hb => ?_, List.sorted_cons.mpr h⟩
      rcases List.mem_cons.mp hb with rfl | hb
      · exact Nat.le_of_not_lt hx
      · exact Nat.le_trans (Nat.le_of_not_lt hx) (h.1 b hb)

theorem sortByKey_sorted {α : Type} (f : α → Nat) (l : List α) :
    List.Sorted (fun a b => f a ≤ f b) (sortByKey f l) := by
  induction l with
  | nil => simp [sortByKey]
  | cons x xs ih => exact insertByKey_sorted x ih

theorem sortByKey_of_chain {α : Type} {f : α → Nat} {l : List α}
    (h : List.Chain' (fun a b => f a ≤ f b) l) : sortByKey f l = l := by
  induction l with
  | nil => rfl
  | cons x xs ih =>
    have hxs : sortByKey f xs = xs := ih h.tail
    rw [sortByKey, hxs]
    cases xs with
    | nil => rfl
    | cons y ys =>
      have hxy : f x ≤ f y := List.chain'_cons.mp h |>.1
      simp [insertByKey, Nat.not_lt.mpr hxy]

theorem insertByKey_append_of_le {α : Type} {f : α → Nat} (r : α) {u v : List α}
    (h : ∀ b ∈ v, f r ≤ f b) :
    insertByKey f r (u ++ v) = insertByKey f r u ++ v := by
  induction u with
  | nil =>
    cases v with
    | nil => rfl
    | cons b bs =>
      have : ¬ f b < f r := Nat.not_lt.mpr (h b (List.mem_cons_self b bs))
      simp [insertByKey, this]
  | cons x xs ih =>
    by_cases hx : f x < f r <;> simp [insertByKey, hx, ih]

theorem insertByKey_append_of_lt {α : Type} {f : α → Nat} (r : α) {l : List α}
    (h : ∀ y ∈ l, f y < f r) : insertByKey f r l = l ++ [r] := by
  induction l with
  | nil => rfl
  | cons x xs ih =>
    have hx : f x < f r := h x (List.mem_cons_self x xs)
    simp only [insertByKey, if_pos hx, List.cons_append, List.cons.injEq, true_and]
    exact ih fun y hy => h y (List.mem_cons_of_mem x hy)

theorem sortByKey_append_of_lt {α : Type} {f : α → Nat} {l₁ l₂ : List α}
    (h : ∀ a ∈ l₁, ∀ b ∈ l₂, f a < f b)
    (h2 : List.Chain' (fun a b => f a ≤ f b) l₂) :
    sortByKey f (l₁ ++ l₂) = sortByKey f l₁ ++ l₂ := by
  induction l₁ with
  | nil => simpa using sortByKey_of_chain h2
  | cons x xs ih =>
    have hx : ∀ b ∈ l₂, f x ≤ f b :=
      fun b hb => Nat.le_of_lt (h x (List.mem_cons_self x xs) b hb)
    rw [List.cons_append, sortByKey, ih (fun a ha => h a (List.mem_cons_of_mem x ha)),
      insertByKey_append_of_le x hx, sortByKey]

theorem insertByKey_filter {α : Type} {f : α → Nat} (p : α → Bool) (r : α) {l : List α}
    (hs : List.Sorted (fun a b => f a ≤ f b) l) :
    (insertByKey f r l).filter p =
      if p r then insertByKey f r (l.filter p) else l.filter p := by
  induction l with
  | nil => by_cases hr : p r <;> simp [insertByKey, hr]
  | cons x xs ih =>
    rw [List.sorted_cons] at hs
    have hrec := ih hs.2
    by_cases hx : f x < f r
    · have h1 : insertByKey f r (x :: xs) = x :: insertByKey f r xs := by
        simp [insertByKey, hx]
      by_cases hpx : p x
      · have h2 : List.filter p (x :: insertByKey f r xs) =
            x :: List.filter p (insertByKey f r xs) := by
          simp [List.filter_cons, hpx]
        have h3 : List.filter p (x :: xs) = x :: List.filter p xs := by
          simp [List.filter_cons, hpx]
        rw [h1, h2, hrec, h3]
        by_cases hr : p r
        · rw [if_pos hr, if_pos hr]
          simp [insertByKey, hx]
        · rw [if_neg hr, if_neg hr]
      · have h2 : List.filter p (x :: insertByKey f r xs) =
            List.filter p (insertByKey f r xs) := by
          simp [List.filter_cons, hpx]
        have h3 : List.filter p (x :: xs) = List.filter p xs := by
          simp [List.filter_cons, hpx]
        rw [h1, h2, hrec, h3]
    · have h1 : insertByKey f r (x :: xs) = r :: x :: xs := by
        simp [insertByKey, hx]
      by_cases hr : p r
      · have h2 : List.filter p (r :: x :: xs) = r :: List.filter p (x :: xs) := by
          simp [List.filter_cons, hr]
        rw [h1, h2, if_pos hr]
        have hins : insertByKey f r (List.filter p (x :: xs)) =
            r :: List.filter p (x :: xs) := by
          cases hfx : List.filter p (x :: xs) with
          | nil => rfl
          | cons y ys =>
            have hy : y ∈ x :: xs := List.mem_of_mem_filter
              (by rw [hfx]; exact List.mem_cons_self y ys)
            have hxy : f x ≤ f y := by
              rcases List.mem_cons.mp hy with rfl | hy2
              · exact Nat.le_refl _
              · exact hs.1 y hy2
            have hny : ¬ f y < f r :=
              Nat.not_lt.mpr (Nat.le_trans (Nat.le_of_not_lt hx) hxy)
            simp [insertByKey, hny]
        rw [hins]
      · have h2 : List.filter p (r :: x :: xs) = List.filter p (x :: xs) := by
          simp [List.filter_cons, hr]
        rw [h1, h2, if_neg hr]

theorem sortByKey_filter {α : Type} (f : α → Nat) (p : α → Bool) (l : List α) :
    (sortByKey f l).filter p = sortByKey f (l.filter p) := by
  induction l with
  | nil => rfl
  | cons x xs ih =>
    rw [sortByKey, insertByKey_filter p x (sortByKey_sorted f xs), ih, List.filter_cons]
    by_cases hx : p x <;> simp [hx, sortByKey]

theorem insertByKey_lex {α : Type} {f g : α → Nat} (r : α) {l : List α}
    (hl : List.Pairwise (fun a b => f a < f b ∨ (f a = f b ∧ g a < g b)) l)
    (hle : List.Sorted (fun a b => f a ≤ f b) l)
    (hg : ∀ y ∈ l, g r < g y) :
    List.Pairwise (fun a b => f a < f b ∨ (f a = f b ∧ g a < g b))
      (insertByKey f r l) := by
  induction l with
  | nil => simp [insertByKey]
  | cons x xs ih =>
    rw [List.pairwise_cons] at hl
    rw [List.sorted_cons] at hle
    by_cases hx : f x < f r
    · simp only [insertByKey, if_pos hx]
      refine List.Pairwise.cons (fun b hb => ?_) ?_
      · rcases mem_insertByKey.mp hb with rfl | hb
        · exact Or.inl hx
        · exact hl.1 b hb
      · exact ih hl.2 hle.2 fun y hy => hg y (List.mem_cons_of_mem x hy)
    · simp only [insertByKey, if_neg hx]
      refine List.Pairwise.cons (fun b hb => ?_) (List.Pairwise.cons hl.1 hl.2)
      rcases List.mem_cons.mp hb with rfl | hb
      · rcases Nat.lt_or_ge (f r) (f b) with hlt | hge
        · exact Or.inl hlt
        · exact Or.inr ⟨Nat.le_antisymm (Nat.le_of_not_lt hx) hge,
            hg b (List.mem_cons_self b xs)⟩
      · rcases Nat.lt_or_ge (f r) (f b) with hlt | hge
        · exact Or.inl hlt
        · refine Or.inr ⟨Nat.le_antisymm ?_ hge, hg b (List.mem_cons_of_mem x hb)⟩
          exact Nat.le_trans (Nat.le_of_not_lt hx) (hle.1 b hb)

theorem sortByKey_lex {α : Type} (f g : α → Nat) {l : List α}
    (h : List.Pairwise (fun a b => g a < g b) l) :
    List.Pairwise (fun a b => f a < f b ∨ (f a = f b ∧ g a < g b))
      (sortByKey f l) := by
  induction l with
  | nil => simp [sortByKey]
  | cons x xs ih =>
    rw [List.pairwise_cons] at h
    exact insertByKey_lex x (ih h.2) (sortByKey_sorted f xs)
      (fun y hy => h.1 y ((sortByKey_perm f xs).mem_iff.mp hy))

theorem eq_of_perm_of_sorted_strict {α : Type} {f : α → Nat} {l₁ l₂ : List α}
    (hp : l₁.Perm l₂)
    (h₁ : List.Pairwise (fun a b => f a < f b) l₁)
    (h₂ : List.Pairwise (fun a b => f a < f b) l₂) : l₁ = l₂ := by
  have : @IsAntisymm α (fun a b => f a < f b) :=
    ⟨fun a b hab hba => absurd (Nat.lt_trans hab hba) (Nat.lt_irrefl _)⟩
  exact List.eq_of_perm_of_sorted hp h₁ h₂

theorem foldl_max_le_iff (l : List Nat) (a n : Nat) :
    l.foldl Nat.max a ≤ n ↔ a ≤ n ∧ ∀ x ∈ l, x ≤ n := by
  induction l generalizing a with
  | nil => simp
  | cons b bs ih =>
    simp only [List.foldl_cons, ih, Nat.max_le, List.mem_cons]
    constructor
    · rintro ⟨⟨h1, h2⟩, h3⟩
      refine ⟨h1, fun x hx => ?_⟩
      rcases hx with rfl | hx
      · exact h2
      · exact h3 x hx
    · rintro ⟨h1, h2⟩
      exact ⟨⟨h1, h2 b (Or.inl rfl)⟩, fun x hx => h2 x (Or.inr hx)⟩

theorem le_maxOrder {α : Type} {rs : List (Rec α)} {r : Rec α} (h : r ∈ rs) :
    r.order ≤ maxOrder rs := by
  have hle : (rs.map (fun x => x.order)).foldl Nat.max 0 ≤ maxOrder rs :=
    Nat.le_of_eq rfl
  rw [foldl_max_le_iff] at hle
  exact hle.2 _ (List.mem_map_of_mem _ h)

theorem maxOrder_perm {α : Type} {l l' : List (Rec α)} (h : l.Perm l') :
    maxOrder l = maxOrder l' := by
  have key : ∀ (u v : List (Rec α)), u.Perm v → maxOrder u ≤ maxOrder v := by
    intro u v huv
    rw [maxOrder, foldl_max_le_iff]
    refine ⟨Nat.zero_le _, fun x hx => ?_⟩
    obtain ⟨r, hr, rfl⟩ := List.mem_map.mp hx
    exact le_maxOrder (huv.mem_iff.mp hr)
  exact Nat.le_antisymm (key _ _ h) (key _ _ h.symm)

theorem maxOrder_sortByOrder {α : Type} (rs : List (Rec α)) :
    maxOrder (sortByOrder rs) = maxOrder rs :=
  maxOrder_perm (sortByKey_perm _ _)

theorem sortByOrder_append_last {α : Type} {rs : List (Rec α)} {r : Rec α}
    (h : ∀ a ∈ rs, a.order < r.order) :
    sortByOrder (rs ++ [r]) = sortByOrder rs ++ [r] :=
  sortByKey_append_of_lt (fun a ha b hb => by
    rw [List.mem_singleton] at hb; subst hb; exact h a ha) (List.chain'_singleton r)

theorem createAlbum_fst (s : DB) (name : String) :
    (Db.createAlbum s name).1 = s.nextAlbumId := rfl

theorem createAlbum_snd (s : DB) (name : String) :
    (Db.createAlbum s name).2 =
      { s with
        albums := s.albums ++
          [⟨s.nextAlbumId, maxOrder s.albums + 1, ⟨name, s.clock, none⟩⟩],
        nextAlbumId := s.nextAlbumId + 1 } := by
  unfold Db.createAlbum
  by_cases h : (Db.getAllAlbums s).length > 0
  · simp only [if_pos h]
    rw [show maxOrder (Db.getAllAlbums s) = maxOrder s.albums from
      maxOrder_sortByOrder s.albums]
  · have h0 : Db.getAllAlbums s = [] :=
      List.length_eq_zero.mp (Nat.eq_zero_of_not_pos h)
    have h1 : s.albums = [] := ((sortByKey_perm _ s.albums).symm.trans
      (by rw [show sortByKey (fun r => r.order) s.albums = Db.getAllAlbums s from rfl,
        h0])).eq_nil
    simp only [if_neg h, h1]
    rfl

theorem getAllAlbums_createAlbum (s : DB) (name : String) :
    Db.getAllAlbums (Db.createAlbum s name).2 =
      Db.getAllAlbums s ++
        [⟨s.nextAlbumId, maxOrder s.albums + 1, ⟨name, s.clock, none⟩⟩] := by
  rw [createAlbum_snd]
  exact sortByOrder_append_last fun a ha =>
    Nat.lt_succ_of_le (le_maxOrder ha)

theorem addPhoto_fst (s : DB) (albumId : Nat) (file : JsBlob) :
    (Db.addPhoto s albumId file).1 = s.nextPhotoId := rfl

theorem addPhoto_snd (s : DB) (albumId : Nat) (file : JsBlob) :
    (Db.addPhoto s albumId file).2 =
      { s with
        photos := s.photos ++
          [⟨s.nextPhotoId,
            maxOrder (s.photos.filter (fun r => r.payload.albumId = albumId)) + 1,
            ⟨albumId, file, file.type, file.data.length, s.clock⟩⟩],
        nextPhotoId := s.nextPhotoId + 1 } := by
  unfold Db.addPhoto
  by_cases h : (Db.getPhotosByAlbum s albumId).length > 0
  · simp only [if_pos h]
    rw [show maxOrder (Db.getPhotosByAlbum s albumId) =
      maxOrder (s.photos.filter (fun r => r.payload.albumId = albumId)) from
      maxOrder_sortByOrder _]
  · have h0 : Db.getPhotosByAlbum s albumId = [] :=
      List.length_eq_zero.mp (Nat.eq_zero_of_not_pos h)
    have h1 : s.photos.filter (fun r => r.payload.albumId = albumId) = [] :=
      ((sortByKey_perm _ _).symm.trans (by
        rw [show sortByKey (fun r => r.order)
          (s.photos.filter (fun r => r.payload.albumId = albumId)) =
          Db.getPhotosByAlbum s albumId from rfl, h0])).eq_nil
    simp only [if_neg h, h1]
    rfl

theorem getPhotosByAlbum_addPhoto_same (s : DB) (albumId : Nat) (file : JsBlob) :
    Db.getPhotosByAlbum (Db.addPhoto s albumId file).2 albumId =
      Db.getPhotosByAlbum s albumId ++
        [⟨s.nextPhotoId,
          maxOrder (s.photos.filter (fun r => r.payload.albumId = albumId)) + 1,
          ⟨albumId, file, file.type, file.data.length, s.clock⟩⟩] := by
  rw [addPhoto_snd]
  show sortByOrder (List.filter _ (s.photos ++ [_])) = _
  rw [List.filter_append]
  rw [show List.filter (fun r => decide (r.payload.albumId = albumId))
      [(⟨s.nextPhotoId,
        maxOrder (s.photos.filter (fun r => r.payload.albumId = albumId)) + 1,
        ⟨albumId, file, file.type, file.data.length, s.clock⟩⟩ : Rec Photo)] =
      [⟨s.nextPhotoId,
        maxOrder (s.photos.filter (fun r => r.payload.albumId = albumId)) + 1,
        ⟨albumId, file, file.type, file.data.length, s.clock⟩⟩] by simp]
  exact sortByOrder_append_last fun a ha =>
    Nat.lt_succ_of_le (le_maxOrder ha)

theorem getPhotosByAlbum_addPhoto_other (s : DB) (albumId aid2 : Nat)
    (file : JsBlob) (h : aid2 ≠ albumId) :
    Db.getPhotosByAlbum (Db.addPhoto s albumId file).2 aid2 =
      Db.getPhotosByAlbum s aid2 := by
  rw [addPhoto_snd]
  show sortByOrder (List.filter _ (s.photos ++ [_])) = _
  rw [List.filter_append]
  have : List.filter (fun r => decide (r.payload.albumId = aid2))
      [(⟨s.nextPhotoId,
        maxOrder (s.photos.filter (fun r => r.payload.albumId = albumId)) + 1,
        ⟨albumId, file, file.type, file.data.length, s.clock⟩⟩ : Rec Photo)] = [] := by
    simp [Ne.symm h]
  rw [this, List.append_nil]
  rfl

theorem addEssay_fst (s : DB) (file : JsBlob) (title : String) :
    (Db.addEssay s file title).1 = s.nextEssayId := rfl

theorem addEssay_snd (s : DB) (file : JsBlob) (title : String) :
    (Db.addEssay s file title).2 =
      { s with
        essays := s.essays ++
          [⟨s.nextEssayId, maxOrder s.essays + 1,
            ⟨title, file, "application/pdf", file.data.length, s.clock, none⟩⟩],
        nextEssayId := s.nextEssayId + 1 } := by
  unfold Db.addEssay
  by_cases h : (Db.getAllEssays s).length > 0
  · simp only [if_pos h]
    rw [show maxOrder (Db.getAllEssays s) = maxOrder s.essays from
      maxOrder_sortByOrder s.essays]
  · have h0 : Db.getAllEssays s = [] :=
      List.length_eq_zero.mp (Nat.eq_zero_of_not_pos h)
    have h1 : s.essays = [] := ((sortByKey_perm _ s.essays).symm.trans
      (by rw [show sortByKey (fun r => r.order) s.essays = Db.getAllEssays s from rfl,
        h0])).eq_nil
    simp only [if_neg h, h1]
    rfl

theorem getAllEssays_addEssay (s : DB) (file : JsBlob) (title : String) :
    Db.getAllEssays (Db.addEssay s file title).2 =
      Db.getAllEssays s ++
        [⟨s.nextEssayId, maxOrder s.essays + 1,
          ⟨title, file, "application/pdf", file.data.length, s.clock, none⟩⟩] := by
  rw [addEssay_snd]
  exact sortByOrder_append_last fun a ha =>
    Nat.lt_succ_of_le (le_maxOrder ha)

theorem addVideo_parse_none (s : DB) {url : String}
    (h : parseVideoUrl url = none) :
    Db.addVideo s url = (.error .invalidVideoUrl, s) := by
  unfold Db.addVideo
  rw [h]

theorem addVideo_parse_some (s : DB) {url : String} {info : VideoInfo}
    (h : parseVideoUrl url = some info) :
    Db.addVideo s url =
      (.ok s.nextVideoId,
        { s with
          videos := s.videos ++
            [⟨s.nextVideoId, maxOrder s.videos + 1,
              ⟨info.provider, url, info.embedId, info.title, s.clock⟩⟩],
          nextVideoId := s.nextVideoId + 1 }) := by
  unfold Db.addVideo
  rw [h]
  by_cases hl : (Db.getAllVideos s).length > 0
  · simp only [if_pos hl]
    rw [show maxOrder (Db.getAllVideos s) = maxOrder s.videos from
      maxOrder_sortByOrder s.videos]
  · have h0 : Db.getAllVideos s = [] :=
      List.length_eq_zero.mp (Nat.eq_zero_of_not_pos hl)
    have h1 : s.videos = [] := ((sortByKey_perm _ s.videos).symm.trans
      (by rw [show sortByKey (fun r => r.order) s.videos = Db.getAllVideos s from rfl,
        h0])).eq_nil
    simp only [if_neg hl, h1]
    rfl

theorem getAllVideos_addVideo (s : DB) {url : String} {info : VideoInfo}
    (h : parseVideoUrl url = some info) :
    Db.getAllVideos (Db.addVideo s url).2 =
      Db.getAllVideos s ++
        [⟨s.nextVideoId, maxOrder s.videos + 1,
          ⟨info.provider, url, info.embedId, info.title, s.clock⟩⟩] := by
  rw [addVideo_parse_some s h]
  exact sortByOrder_append_last fun a ha =>
    Nat.lt_succ_of_le (le_maxOrder ha)

theorem createAlbums_listing (names : List String) (s : DB) :
    ∃ recs : List (Rec Album),
      Db.getAllAlbums (Db.createAlbums s names) = Db.getAllAlbums s ++ recs ∧
      recs.map (fun r => r.payload.name) = names ∧
      recs.map (fun r => r.id) =
        (List.range names.length).map (fun k => s.nextAlbumId + k) ∧
      List.Chain' (fun a b => a.order < b.order) recs ∧
      (∀ r ∈ recs, ∀ old ∈ s.albums, old.order < r.order) := by
  induction names generalizing s with
  | nil => exact ⟨[], by simp [Db.createAlbums], rfl, rfl, trivial, by simp⟩
  | cons n rest ih =>
    obtain ⟨recs, h1, h2, h3, h4, h5⟩ := ih (Db.createAlbum s n).2
    have hnext : (Db.createAlbum s n).2.nextAlbumId = s.nextAlbumId + 1 := by
      rw [createAlbum_snd]
    have halb : (Db.createAlbum s n).2.albums =
        s.albums ++ [⟨s.nextAlbumId, maxOrder s.albums + 1, ⟨n, s.clock, none⟩⟩] := by
      rw [createAlbum_snd]
    refine ⟨⟨s.nextAlbumId, maxOrder s.albums + 1, ⟨n, s.clock, none⟩⟩ :: recs,
      ?_, ?_, ?_, ?_, ?_⟩
    · have hfold : Db.createAlbums s (n :: rest) =
        Db.createAlbums (Db.createAlbum s n).2 rest := rfl
      rw [hfold, h1, getAllAlbums_createAlbum]
      simp
    · simp [h2]
    · simp only [List.map_cons, h3, hnext, List.length_cons,
        List.range_succ_eq_map, List.map_map]
      refine List.cons_eq_cons.mpr ⟨by simp, ?_⟩
      apply List.map_congr_left
      intro k _
      simp only [Function.comp_apply]
      omega
    · rw [List.chain'_cons']
      refine ⟨fun y hy => ?_, h4⟩
      have hyrec : y ∈ recs := List.mem_of_mem_head? hy
      have : ⟨s.nextAlbumId, maxOrder s.albums + 1, ⟨n, s.clock, none⟩⟩ ∈
          (Db.createAlbum s n).2.albums := by
        rw [halb]; exact List.mem_append_right _ (List.mem_singleton_self _)
      exact h5 y hyrec _ this
    · intro r hr old hold
      rcases List.mem_cons.mp hr with rfl | hr
      · exact Nat.lt_succ_of_le (le_maxOrder hold)
      · exact h5 r hr old (by rw [halb]; exact List.mem_append_left _ hold)

theorem addEssays_listing (items : List (JsBlob × String)) (s : DB) :
    ∃ recs : List (Rec Essay),
      Db.getAllEssays (Db.addEssays s items) = Db.getAllEssays s ++ recs ∧
      recs.map (fun r => (r.payload.title, r.payload.pdfBlob)) =
        items.map (fun it => (it.2, it.1)) ∧
      List.Chain' (fun a b => a.order < b.order) recs ∧
      (∀ r ∈ recs, ∀ old ∈ s.essays, old.order < r.order) := by
  induction items generalizing s with
  | nil => exact ⟨[], by simp [Db.addEssays], rfl, trivial, by simp⟩
  | cons it rest ih =>
    obtain ⟨recs, h1, h2, h3, h4⟩ := ih (Db.addEssay s it.1 it.2).2
    have hess : (Db.addEssay s it.1 it.2).2.essays =
        s.essays ++ [⟨s.nextEssayId, maxOrder s.essays + 1,
          ⟨it.2, it.1, "application/pdf", it.1.data.length, s.clock, none⟩⟩] := by
      rw [addEssay_snd]
    refine ⟨⟨s.nextEssayId, maxOrder s.essays + 1,
      ⟨it.2, it.1, "application/pdf", it.1.data.length, s.clock, none⟩⟩ :: recs,
      ?_, ?_, ?_, ?_⟩
    · have hfold : Db.addEssays s (it :: rest) =
        Db.addEssays (Db.addEssay s it.1 it.2).2 rest := rfl
      rw [hfold, h1, getAllEssays_addEssay]
      simp
    · simp [h2]
    · rw [List.chain'_cons']
      refine ⟨fun y hy => ?_, h3⟩
      have hyrec : y ∈ recs := List.mem_of_mem_head? hy
      have : ⟨s.nextEssayId, maxOrder s.essays + 1,
          ⟨it.2, it.1, "application/pdf", it.1.data.length, s.clock, none⟩⟩ ∈
          (Db.addEssay s it.1 it.2).2.essays := by
        rw [hess]; exact List.mem_append_right _ (List.mem_singleton_self _)
      exact h4 y hyrec _ this
    · intro r hr old hold
      rcases List.mem_cons.mp hr with rfl | hr
      · exact Nat.lt_succ_of_le (le_maxOrder hold)
      · exact h4 r hr old (by rw [hess]; exact List.mem_append_left _ hold)

theorem addVideos_listing (urls : List String) (s : DB)
    (h : ∀ u ∈ urls, parseVideoUrl u ≠ none) :
    ∃ recs : List (Rec Video),
      Db.getAllVideos (Db.addVideos s urls) = Db.getAllVideos s ++ recs ∧
      List.Forall₂ (fun u (r : Rec Video) => r.payload.url = u ∧
        parseVideoUrl u =
          some ⟨r.payload.provider, r.payload.embedId, r.payload.title⟩) urls recs ∧
      List.Chain' (fun a b => a.order < b.order) recs ∧
      (∀ r ∈ recs, ∀ old ∈ s.videos, old.order < r.order) := by
  induction urls generalizing s with
  | nil => exact ⟨[], by simp [Db.addVideos], List.Forall₂.nil, trivial, by simp⟩
  | cons u rest ih =>
    obtain ⟨info, hinfo⟩ := Option.ne_none_iff_exists'.mp
      (h u (List.mem_cons_self u rest))
    obtain ⟨recs, h1, h2, h3, h4⟩ :=
      ih (Db.addVideo s u).2 (fun x hx => h x (List.mem_cons_of_mem u hx))
    have hvid : (Db.addVideo s u).2.videos =
        s.videos ++ [⟨s.nextVideoId, maxOrder s.videos + 1,
          ⟨info.provider, u, info.embedId, info.title, s.clock⟩⟩] := by
      rw [addVideo_parse_some s hinfo]
    refine ⟨⟨s.nextVideoId, maxOrder s.videos + 1,
      ⟨info.provider, u, info.embedId, info.title, s.clock⟩⟩ :: recs, ?_, ?_, ?_, ?_⟩
    · have hfold : Db.addVideos s (u :: rest) =
        Db.addVideos (Db.addVideo s u).2 rest := rfl
      rw [hfold, h1, getAllVideos_addVideo s hinfo]
      simp
    · exact List.Forall₂.cons ⟨rfl, hinfo⟩ h2
    · rw [List.chain'_cons']
      refine ⟨fun y hy => ?_, h3⟩
      have hyrec : y ∈ recs := List.mem_of_mem_head? hy
      have : ⟨s.nextVideoId, maxOrder s.videos + 1,
          ⟨info.provider, u, info.embedId, info.title, s.clock⟩⟩ ∈
          (Db.addVideo s u).2.videos := by
        rw [hvid]; exact List.mem_append_right _ (List.mem_singleton_self _)
      exact h4 y hyrec _ this
    · intro r hr old hold
      rcases List.mem_cons.mp hr with rfl | hr
      · exact Nat.lt_succ_of_le (le_maxOrder hold)
      · exact h4 r hr old (by rw [hvid]; exact List.mem_append_left _ hold)

theorem addPhotos_listing (files : List JsBlob) (s : DB) (albumId : Nat) :
    ∃ recs : List (Rec Photo),
      Db.getPhotosByAlbum (Db.addPhotos s albumId files) albumId =
        Db.getPhotosByAlbum s albumId ++ recs ∧
      recs.map (fun r => r.payload.blob) = files ∧
      List.Chain' (fun a b => a.order < b.order) recs ∧
      (∀ r ∈ recs, ∀ old ∈ s.photos.filter (fun q => q.payload.albumId = albumId),
        old.order < r.order) := by
  induction files generalizing s with
  | nil => exact ⟨[], by simp [Db.addPhotos], rfl, trivial, by simp⟩
  | cons f rest ih =>
    obtain ⟨recs, h1, h2, h3, h4⟩ := ih (Db.addPhoto s albumId f).2
    have hph : (Db.addPhoto s albumId f).2.photos =
        s.photos ++ [⟨s.nextPhotoId,
          maxOrder (s.photos.filter (fun q => q.payload.albumId = albumId)) + 1,
          ⟨albumId, f, f.type, f.data.length, s.clock⟩⟩] := by
      rw [addPhoto_snd]
    refine ⟨⟨s.nextPhotoId,
      maxOrder (s.photos.filter (fun q => q.payload.albumId = albumId)) + 1,
      ⟨albumId, f, f.type, f.data.length, s.clock⟩⟩ :: recs, ?_, ?_, ?_, ?_⟩
    · have hfold : Db.addPhotos s albumId (f :: rest) =
        Db.addPhotos (Db.addPhoto s albumId f).2 albumId rest := rfl
      rw [hfold, h1, getPhotosByAlbum_addPhoto_same]
      simp
    · simp [h2]
    · rw [List.chain'_cons']
      refine ⟨fun y hy => ?_, h3⟩
      have hyrec : y ∈ recs := List.mem_of_mem_head? hy
      have : ⟨s.nextPhotoId,
          maxOrder (s.photos.filter (fun q => q.payload.albumId = albumId)) + 1,
          ⟨albumId, f, f.type, f.data.length, s.clock⟩⟩ ∈
          (Db.addPhoto s albumId f).2.photos.filter
            (fun q => q.payload.albumId = albumId) := by
        rw [hph, List.filter_append]
        refine List.mem_append_right _ ?_
        simp
      exact h4 y hyrec _ this
    · intro r hr old hold
      rcases List.mem_cons.mp hr with rfl | hr
      · exact Nat.lt_succ_of_le (le_maxOrder hold)
      · refine h4 r hr old ?_
        rw [hph, List.filter_append]
        exact List.mem_append_left _ hold

theorem getLast?_cons_getD {β : Type} (a : β) (l : List β) :
    (a :: l).getLast? = some (l.getLast?.getD a) := by
  induction l generalizing a with
  | nil => rfl
  | cons b bs ih =>
    rw [List.getLast?_cons_cons, ih b]
    simp [ih b]

theorem lastAssign_cons_ne {k b i : Nat} (rest : List (Nat × Nat)) (h : ¬ b = i) :
    lastAssign ((k, b) :: rest) i = lastAssign rest i := by
  simp [lastAssign, List.filter_cons, h]

theorem lastAssign_cons_eq {k i : Nat} (rest : List (Nat × Nat)) :
    lastAssign ((k, i) :: rest) i = some ((lastAssign rest i).getD k) := by
  simp only [lastAssign, List.filter_cons]
  rw [if_pos (by simp), List.map_cons, getLast?_cons_getD]

theorem setOrder_map_id {α : Type} (i ord : Nat) (rs : List (Rec α)) :
    (setOrder i ord rs).map (fun r => r.id) = rs.map (fun r => r.id) := by
  rw [setOrder, List.map_map]
  apply List.map_congr_left
  intro r _
  by_cases h : r.id = i <;> simp [h]

theorem reorderStep_map_id {α : Type} (g : α → Bool) (acc : List (Rec α))
    (p : Nat × Nat) :
    (reorderStep g acc p).map (fun r => r.id) = acc.map (fun r => r.id) := by
  rw [reorderStep]
  cases acc.find? (fun r => r.id = p.2) with
  | none => rfl
  | some r =>
    by_cases h : g r.payload
    · simp only [if_pos h]
      exact setOrder_map_id _ _ _
    · simp [if_neg h]

theorem reorderStep_char {α : Type} (g : α → Bool) (i idx : Nat)
    {rs : List (Rec α)} (hnd : (rs.map (fun r => r.id)).Nodup) :
    reorderStep g rs (idx, i) =
      rs.map (fun r =>
        if r.id = i ∧ g r.payload then { r with order := idx } else r) := by
  rw [reorderStep]
  cases hf : rs.find? (fun r => r.id = i) with
  | none =>
    have hnone : ∀ r ∈ rs, ¬ (r.id = i) := fun r hr => by
      simpa using List.find?_eq_none.mp hf r hr
    calc rs = rs.map id := (List.map_id rs).symm
      _ = _ := List.map_congr_left fun r hr => by simp [hnone r hr]
  | some r0 =>
    have hr0m : r0 ∈ rs := List.mem_of_find?_eq_some hf
    have hr0i : r0.id = i := by simpa using List.find?_some hf
    show (if g r0.payload = true then setOrder i idx rs else rs) = _
    by_cases hg : g r0.payload
    · rw [if_pos hg, setOrder]
      apply List.map_congr_left
      intro r hr
      by_cases hri : r.id = i
      · have hrr0 : r = r0 :=
          List.inj_on_of_nodup_map hnd hr hr0m (by rw [hri, hr0i])
        rw [if_pos hri, if_pos ⟨hri, by rw [hrr0]; exact hg⟩]
      · rw [if_neg hri, if_neg (fun hc => hri hc.1)]
    · rw [if_neg hg]
      calc rs = rs.map id := (List.map_id rs).symm
        _ = _ := List.map_congr_left fun r hr => by
          by_cases hri : r.id = i
          · have hrr0 : r = r0 :=
              List.inj_on_of_nodup_map hnd hr hr0m (by rw [hri, hr0i])
            rw [id_eq, if_neg (fun hc => hg (hrr0 ▸ hc.2))]
          · rw [id_eq, if_neg (fun hc => hri hc.1)]

theorem reorderPairs_char {α : Type} (g : α → Bool) (pairs : List (Nat × Nat))
    (rs : List (Rec α)) (hnd : (rs.map (fun r => r.id)).Nodup) :
    pairs.foldl (reorderStep g) rs =
      rs.map (fun r =>
        match lastAssign pairs r.id with
        | some idx => if g r.payload then { r with order := idx } else r
        | none => r) := by
  induction pairs generalizing rs with
  | nil =>
    have : ∀ i, lastAssign [] i = none := fun i => rfl
    simp [lastAssign]
  | cons p rest ih =>
    obtain ⟨pk, pi⟩ := p
    rw [List.foldl_cons]
    have hstep : reorderStep g rs (pk, pi) =
        rs.map (fun r =>
          if r.id = pi ∧ g r.payload then { r with order := pk } else r) :=
      reorderStep_char g pi pk hnd
    rw [hstep, ih _ (by
      rw [show (rs.map fun r =>
        if r.id = pi ∧ g r.payload then { r with order := pk } else r) =
        reorderStep g rs (pk, pi) from hstep.symm, reorderStep_map_id]
      exact hnd), List.map_map]
    apply List.map_congr_left
    intro r _
    obtain ⟨rid, rord, rpl⟩ := r
    simp only [Function.comp_apply]
    by_cases hpi : rid = pi
    · subst hpi
      rw [lastAssign_cons_eq rest]
      by_cases hg : g rpl
      · rw [if_pos ⟨rfl, hg⟩]
        cases h : lastAssign rest rid with
        | none => simp [h, hg]
        | some idx => simp [h, hg]
      · rw [if_neg (fun hc => hg hc.2)]
        cases h : lastAssign rest rid with
        | none => simp [h, hg]
        | some idx => simp [h, hg]
    · rw [if_neg (fun hc => hpi hc.1), lastAssign_cons_ne rest (fun hc => hpi hc.symm)]

theorem filter_enumFrom_not_mem {i : Nat} {l : List Nat} (h : i ∉ l) (k : Nat) :
    (List.enumFrom k l).filter (fun p => p.2 = i) = [] := by
  induction l generalizing k with
  | nil => rfl
  | cons a as ih =>
    rw [List.enumFrom_cons, List.filter_cons]
    have ha : ¬ a = i := fun hc => h (hc ▸ List.mem_cons_self a as)
    rw [if_neg (by simpa using ha)]
    exact ih (fun hc => h (List.mem_cons_of_mem a hc)) (k + 1)

theorem lastAssign_enumFrom_not_mem {i : Nat} {l : List Nat} (h : i ∉ l) (k : Nat) :
    lastAssign (List.enumFrom k l) i = none := by
  rw [lastAssign, filter_enumFrom_not_mem h]
  rfl

theorem lastAssign_enumFrom_getElem {l : List Nat} (hnd : l.Nodup) {j : Nat}
    (hj : j < l.length) (k : Nat) :
    lastAssign (List.enumFrom k l) (l[j]) = some (k + j) := by
  induction l generalizing k j with
  | nil => exact absurd hj (by simp)
  | cons a as ih =>
    rw [List.enumFrom_cons]
    cases j with
    | zero =>
      rw [List.getElem_cons_zero, lastAssign_cons_eq,
        lastAssign_enumFrom_not_mem (List.nodup_cons.mp hnd).1 (k + 1)]
      rfl
    | succ j2 =>
      have hj2 : j2 < as.length := by simpa using hj
      rw [List.getElem_cons_succ]
      have hne : ¬ a = as[j2] := fun hc =>
        (List.nodup_cons.mp hnd).1 (hc ▸ List.getElem_mem hj2)
      rw [lastAssign_cons_ne _ hne, ih (List.nodup_cons.mp hnd).2 hj2 (k + 1)]
      congr 1
      omega

theorem lastAssign_enum_indexOf {ids : List Nat} (hnd : ids.Nodup) {i : Nat}
    (h : i ∈ ids) : lastAssign ids.enum i = some (ids.indexOf i) := by
  have hlt : ids.indexOf i < ids.length := List.indexOf_lt_length.mpr h
  have hget : ids[ids.indexOf i] = i := List.getElem_indexOf hlt
  have h2 := lastAssign_enumFrom_getElem hnd hlt 0
  rw [hget, Nat.zero_add] at h2
  rw [List.enum_eq_enumFrom]
  exact h2

theorem lastAssign_enum_not_mem {ids : List Nat} {i : Nat} (h : i ∉ ids) :
    lastAssign ids.enum i = none := by
  rw [List.enum_eq_enumFrom]
  exact lastAssign_enumFrom_not_mem h 0

theorem reorderScope_char {α : Type} (g : α → Bool) (ids : List Nat)
    (rs : List (Rec α)) (hnd : (rs.map (fun r => r.id)).Nodup)
    (hids : ids.Nodup) :
    reorderScope g ids rs =
      rs.map (fun r =>
        if r.id ∈ ids ∧ g r.payload then { r with order := ids.indexOf r.id }
        else r) := by
  rw [reorderScope, reorderPairs_char g ids.enum rs hnd]
  apply List.map_congr_left
  intro r _
  by_cases hm : r.id ∈ ids
  · rw [lastAssign_enum_indexOf hids hm]
    show (if g r.payload = true then
      ({ r with order := ids.indexOf r.id } : Rec _) else r) = _
    by_cases hg : g r.payload
    · rw [if_pos hg, if_pos ⟨hm, hg⟩]
    · rw [if_neg hg, if_neg (fun hc => hg hc.2)]
  · rw [lastAssign_enum_not_mem hm]
    show r = _
    rw [if_neg (fun hc => hm hc.1)]

theorem filter_setOrder {α : Type} {p : Rec α → Bool} {i : Nat} (idx : Nat)
    {l : List (Rec α)}
    (hp : ∀ (r : Rec α) (o : Nat), p { r with order := o } = p r)
    (hpi : ∀ r ∈ l, r.id = i → p r = false) :
    (setOrder i idx l).filter p = l.filter p := by
  induction l with
  | nil => rfl
  | cons x xs ih =>
    rw [setOrder, List.map_cons, List.filter_cons, List.filter_cons]
    have ihx : (setOrder i idx xs).filter p = xs.filter p :=
      ih fun r hr => hpi r (List.mem_cons_of_mem x hr)
    by_cases hxi : x.id = i
    · have hfalse : p x = false := hpi x (List.mem_cons_self x xs) hxi
      rw [if_pos hxi, hp x idx, hfalse]
      simpa [setOrder] using ihx
    · rw [if_neg hxi]
      by_cases hpx : p x <;> simp only [hpx] <;> simpa [setOrder] using ihx

theorem enumFrom_snd_mem {l : List Nat} {q : Nat × Nat} {k : Nat}
    (h : q ∈ List.enumFrom k l) : q.2 ∈ l := by
  induction l generalizing k with
  | nil => simp at h
  | cons a as ih =>
    rw [List.enumFrom_cons] at h
    rcases List.mem_cons.mp h with rfl | h
    · exact List.mem_cons_self a as
    · exact List.mem_cons_of_mem a (ih h)

theorem reorderScope_filter_untouched {α : Type} (g : α → Bool) (ids : List Nat)
    (rs : List (Rec α)) :
    (reorderScope g ids rs).filter (fun r => decide (r.id ∉ ids)) =
      rs.filter (fun r => decide (r.id ∉ ids)) := by
  rw [reorderScope]
  have key : ∀ (pairs : List (Nat × Nat)), (∀ q ∈ pairs, q.2 ∈ ids) →
      ∀ acc : List (Rec α),
      (pairs.foldl (reorderStep g) acc).filter (fun r => decide (r.id ∉ ids)) =
        acc.filter (fun r => decide (r.id ∉ ids)) := by
    intro pairs
    induction pairs with
    | nil => intro _ acc; rfl
    | cons q rest ih =>
      intro hmem acc
      rw [List.foldl_cons, ih (fun x hx => hmem x (List.mem_cons_of_mem q hx))]
      rw [reorderStep]
      cases acc.find? (fun r => r.id = q.2) with
      | none => rfl
      | some r0 =>
        by_cases hg : g r0.payload
        · show (if g r0.payload = true then setOrder q.2 q.1 acc else acc).filter _ = _
          rw [if_pos hg]
          exact filter_setOrder q.1 (fun r o => rfl)
            (fun r _ hri => by
              simp only [decide_eq_false_iff_not, Decidable.not_not]
              exact hri ▸ hmem q (List.mem_cons_self q rest))
        · show (if g r0.payload = true then setOrder q.2 q.1 acc else acc).filter _ = _
          rw [if_neg hg]
  exact key ids.enum
    (fun q hq => enumFrom_snd_mem (List.enum_eq_enumFrom ▸ hq)) rs

theorem map_indexOf_nodup {β : Type} [DecidableEq β] {l : List β} (h : l.Nodup) :
    l.map (fun x => l.indexOf x) = List.range l.length := by
  induction l with
  | nil => rfl
  | cons a as ih =>
    rw [List.map_cons, List.indexOf_cons_self, List.length_cons,
      List.range_succ_eq_map]
    refine List.cons_eq_cons.mpr ⟨rfl, ?_⟩
    have h1 : as.map (fun x => (a :: as).indexOf x) =
        as.map (fun x => (as.indexOf x).succ) :=
      List.map_congr_left fun x hx =>
        List.indexOf_cons_ne as (fun hc => (List.nodup_cons.mp h).1 (hc ▸ hx))
    rw [h1, show (fun x => (as.indexOf x).succ) =
      Nat.succ ∘ (fun x => as.indexOf x) from rfl, ← List.map_map,
      ih (List.nodup_cons.mp h).2]

theorem sorted_map_id_eq {α : Type} {m : List (Rec α)} {ids : List Nat}
    (hids : ids.Nodup)
    (hperm : (m.map (fun r => r.id)).Perm ids)
    (hord : ∀ r ∈ m, r.order = ids.indexOf r.id)
    (hsorted : List.Sorted (fun a b => a.order ≤ b.order) m) :
    m.map (fun r => r.id) = ids := by
  have hlen : m.length = ids.length := by simpa using hperm.length_eq
  have hmapord : m.map (fun r => r.order) =
      (m.map (fun r => r.id)).map (fun i => ids.indexOf i) := by
    rw [List.map_map]
    exact List.map_congr_left fun r hr => hord r hr
  have hpr : (m.map (fun r => r.order)).Perm (List.range ids.length) := by
    rw [hmapord, ← map_indexOf_nodup hids]
    exact hperm.map _
  have hle : List.Pairwise (fun a b => a ≤ b) (m.map (fun r => r.order)) :=
    List.Pairwise.map _ (fun a b hab => hab) hsorted
  have hndord : (m.map (fun r => r.order)).Nodup :=
    hpr.symm.nodup (List.nodup_range _)
  have hstrict : List.Pairwise (fun a b => a < b) (m.map (fun r => r.order)) :=
    List.Pairwise.imp₂ (fun a b h1 h2 => Nat.lt_of_le_of_ne h1 h2) hle hndord
  have hrange : m.map (fun r => r.order) = List.range ids.length :=
    @eq_of_perm_of_sorted_strict _ (fun x => x) _ _ hpr hstrict
      (List.pairwise_lt_range _)
  apply List.ext_getElem (by simpa using hlen)
  intro j h1 h2
  have hj : j < m.length := by simpa using h1
  have hjids : j < ids.length := by rw [← hlen]; exact hj
  have hjo : j < (m.map (fun r => r.order)).length := by simpa using hj
  have hjr : j < (List.range ids.length).length := by simpa using hjids
  have hordj : m[j].order = j := by
    have h9 : (m.map (fun r => r.order))[j]? = (List.range ids.length)[j]? := by
      rw [hrange]
    rw [List.getElem?_eq_getElem hjo, List.getElem?_eq_getElem hjr] at h9
    have h10 := Option.some.inj h9
    rw [List.getElem_map, List.getElem_range] at h10
    exact h10
  have hmem : m[j] ∈ m := List.getElem_mem hj
  have hidxj : ids.indexOf (m[j].id) = j := by
    rw [← hord (m[j]) hmem, hordj]
  have hgoal : (m.map (fun r => r.id))[j] = m[j].id := List.getElem_map _
  have hidxlt : ids.indexOf (m[j].id) < ids.length := by
    rw [hidxj]; exact hjids
  have h11 : ids[ids.indexOf (m[j].id)]? = ids[j]? := by rw [hidxj]
  rw [List.getElem?_eq_getElem hidxlt, List.getElem?_eq_getElem hjids] at h11
  have h12 := Option.some.inj h11
  rw [hgoal, ← h12, List.getElem_indexOf]

theorem decChar_encChar : ∀ k : Nat, k < 64 → decChar (encChar k) = k := by
  decide

theorem encChar_ne_pad : ∀ k : Nat, k < 64 → ¬ (encChar k = '=') := by
  decide

theorem b64Decode_four (w x y z : Char) (rest : List Char) :
    b64Decode (w :: x :: y :: z :: rest) =
      if y = '=' then [decChar w * 4 + decChar x / 16]
      else if z = '=' then
        [decChar w * 4 + decChar x / 16, decChar x % 16 * 16 + decChar y / 4]
      else
        (decChar w * 4 + decChar x / 16) :: (decChar x % 16 * 16 + decChar y / 4) ::
          (decChar y % 4 * 64 + decChar z) :: b64Decode rest := rfl

theorem b64_roundtrip (bs : List Nat) (h : ∀ b ∈ bs, b < 256) :
    b64Decode (b64Encode bs) = bs := by
  induction bs using b64Encode.induct with
  | case1 => rfl
  | case2 a =>
    have ha : a < 256 := h a (by simp)
    rw [b64Encode, b64Decode_four, if_pos rfl,
      decChar_encChar _ (by omega), decChar_encChar _ (by omega)]
    have h1 : a / 4 * 4 + a % 4 * 16 / 16 = a := by omega
    rw [h1]
  | case3 a b =>
    have ha : a < 256 := h a (by simp)
    have hb : b < 256 := h b (by simp)
    rw [b64Encode, b64Decode_four, if_neg (encChar_ne_pad _ (by omega)),
      if_pos rfl, decChar_encChar _ (by omega), decChar_encChar _ (by omega),
      decChar_encChar _ (by omega)]
    have h1 : a / 4 * 4 + (a % 4 * 16 + b / 16) / 16 = a := by omega
    have h2 : (a % 4 * 16 + b / 16) % 16 * 16 + b % 16 * 4 / 4 = b := by omega
    rw [h1, h2]
  | case4 a b c rest ih =>
    have ha : a < 256 := h a (by simp)
    have hb : b < 256 := h b (by simp)
    have hc : c < 256 := h c (by simp)
    rw [b64Encode, b64Decode_four, if_neg (encChar_ne_pad _ (by omega)),
      if_neg (encChar_ne_pad _ (by omega)),
      decChar_encChar _ (by omega), decChar_encChar _ (by omega),
      decChar_encChar _ (by omega), decChar_encChar _ (by omega),
      ih (fun x hx => h x (by simp [hx]))]
    have h1 : a / 4 * 4 + (a % 4 * 16 + b / 16) / 16 = a := by omega
    have h2 : (a % 4 * 16 + b / 16) % 16 * 16 + (b % 16 * 4 + c / 64) / 4 = b := by
      omega
    have h3 : (b % 16 * 4 + c / 64) % 4 * 64 + c % 64 = c := by omega
    rw [h1, h2, h3]

theorem b64Encode_ne_nil {bs : List Nat} (h : bs ≠ []) : b64Encode bs ≠ [] := by
  match bs with
  | [] => exact absurd rfl h
  | [a] => simp [b64Encode]
  | [a, b] => simp [b64Encode]
  | a :: b :: c :: rest => simp [b64Encode]

theorem reorder_listing_perm {α : Type} (g : α → Bool) (ids : List Nat)
    (rs : List (Rec α)) (hnd : (rs.map (fun r => r.id)).Nodup)
    (hids : ids.Nodup)
    (hperm : ids.Perm ((rs.filter (fun r => g r.payload)).map (fun r => r.id))) :
    (sortByOrder ((reorderScope g ids rs).filter (fun r => g r.payload))).map
      (fun r => r.id) = ids := by
  rw [reorderScope_char g ids rs hnd hids]
  have hfil : (rs.map (fun r =>
      if r.id ∈ ids ∧ g r.payload then { r with order := ids.indexOf r.id }
      else r)).filter (fun r => g r.payload) =
      (rs.filter (fun r => g r.payload)).map (fun r =>
        if r.id ∈ ids ∧ g r.payload then { r with order := ids.indexOf r.id }
        else r) := by
    rw [List.filter_map]
    congr 1
    apply List.filter_congr
    intro r _
    by_cases hc : r.id ∈ ids ∧ g r.payload <;> simp [hc, Function.comp]
  rw [hfil]
  apply sorted_map_id_eq hids
  · have e1 : ((rs.filter (fun r => g r.payload)).map (fun r =>
        if r.id ∈ ids ∧ g r.payload then { r with order := ids.indexOf r.id }
        else r)).map (fun r => r.id) =
        (rs.filter (fun r => g r.payload)).map (fun r => r.id) := by
      rw [List.map_map]
      apply List.map_congr_left
      intro r _
      by_cases hc : r.id ∈ ids ∧ g r.payload <;> simp [hc]
    have p1 := ((sortByKey_perm (fun (r : Rec α) => r.order)
      ((rs.filter (fun r => g r.payload)).map (fun r =>
        if r.id ∈ ids ∧ g r.payload then { r with order := ids.indexOf r.id }
        else r))).map (fun r => r.id))
    rw [e1] at p1
    exact p1.trans hperm.symm
  · intro r hr
    have hr2 : r ∈ (rs.filter (fun r => g r.payload)).map (fun r =>
        if r.id ∈ ids ∧ g r.payload then { r with order := ids.indexOf r.id }
        else r) := (sortByKey_perm _ _).mem_iff.mp hr
    obtain ⟨r0, hr0, rfl⟩ := List.mem_map.mp hr2
    have hr0g : g r0.payload = true :=
      (List.mem_filter.mp hr0).2
    have hr0id : r0.id ∈ ids :=
      hperm.mem_iff.mpr (List.mem_map_of_mem (fun r => r.id) hr0)
    rw [if_pos ⟨hr0id, hr0g⟩]
  · exact sortByKey_sorted _ _


theorem sortByOrder_filter {α : Type} (p : Rec α → Bool) (l : List (Rec α)) :
    (sortByOrder l).filter p = sortByOrder (l.filter p) :=
  sortByKey_filter _ _ _

theorem delPhotos_photos (pids : List Nat) (s : DB) :
    ((pids.map Db.DelStep.photo).foldl Db.applyDelStep s).photos =
      s.photos.filter (fun p => decide (p.id ∉ pids)) := by
  induction pids generalizing s with
  | nil => simp
  | cons pid rest ih =>
    rw [List.map_cons, List.foldl_cons, ih]
    show (Db.removePhoto s pid).photos.filter _ = _
    rw [Db.removePhoto]
    show (s.photos.filter _).filter _ = _
    rw [List.filter_filter]
    apply List.filter_congr
    intro p _
    by_cases h1 : p.id = pid
    · simp [h1]
    · simp [h1]

theorem delPhotos_albums (pids : List Nat) (s : DB) :
    ((pids.map Db.DelStep.photo).foldl Db.applyDelStep s).albums = s.albums := by
  induction pids generalizing s with
  | nil => rfl
  | cons pid rest ih =>
    rw [List.map_cons, List.foldl_cons, ih]
    rfl

theorem Db.deleteAlbumTrace_split (s : DB) (i : Nat) :
    Db.deleteAlbumTrace s i =
      ((Db.getPhotosByAlbum s i).map (fun p => p.id)).map Db.DelStep.photo ++
        [Db.DelStep.album i] := by
  rw [Db.deleteAlbumTrace]
  simp [List.map_map, Function.comp]

/-- C6: deleteAlbum removes every child photo of the album and the album
record itself (absent from subsequent listings); the trace of awaited
sub-operations deletes the children first, the album record strictly
last, so after any prefix of the trace that has not executed every child
deletion and the final album deletion the albums store is untouched. -/
theorem deleteAlbum_cascade (s : DB) (i : Nat) :
    (Db.deleteAlbum s i).photos.filter (fun p => p.payload.albumId = i) = [] ∧
    (Db.deleteAlbum s i).albums.filter (fun a => a.id = i) = [] ∧
    (∀ a ∈ Db.getAllAlbums (Db.deleteAlbum s i), a.id ≠ i) ∧
    (∀ k, k ≤ (Db.getPhotosByAlbum s i).length →
      (((Db.deleteAlbumTrace s i).take k).foldl Db.applyDelStep s).albums = s.albums) := by
  have hsplit : Db.deleteAlbum s i =
      Db.applyDelStep
        ((((Db.getPhotosByAlbum s i).map (fun p => p.id)).map Db.DelStep.photo).foldl
          Db.applyDelStep s)
        (Db.DelStep.album i) := by
    rw [Db.deleteAlbum, Db.deleteAlbumTrace_split, List.foldl_append]
    rfl
  have hfinal : Db.deleteAlbum s i =
      { ((((Db.getPhotosByAlbum s i).map (fun p => p.id)).map Db.DelStep.photo).foldl
          Db.applyDelStep s) with
        albums := ((((Db.getPhotosByAlbum s i).map (fun p => p.id)).map
          Db.DelStep.photo).foldl Db.applyDelStep s).albums.filter (fun r => r.id ≠ i) } := by
    rw [hsplit]
    rfl
  refine ⟨?_, ?_, ?_, ?_⟩
  · rw [hfinal]
    show ((((Db.getPhotosByAlbum s i).map (fun p => p.id)).map Db.DelStep.photo).foldl
      Db.applyDelStep s).photos.filter _ = []
    rw [delPhotos_photos, List.filter_eq_nil_iff]
    intro p hp
    have hmem := List.mem_filter.mp hp
    have hnotin : p.id ∉ (Db.getPhotosByAlbum s i).map (fun p => p.id) := by
      simpa using hmem.2
    intro hpi
    apply hnotin
    have hpfil : p ∈ s.photos.filter (fun q => q.payload.albumId = i) :=
      List.mem_filter.mpr ⟨hmem.1, hpi⟩
    have : p ∈ Db.getPhotosByAlbum s i :=
      (sortByKey_perm (fun (r : Rec Photo) => r.order) _).mem_iff.mpr hpfil
    exact List.mem_map_of_mem _ this
  · rw [hfinal]
    show (((((Db.getPhotosByAlbum s i).map (fun p => p.id)).map Db.DelStep.photo).foldl
      Db.applyDelStep s).albums.filter (fun r => r.id ≠ i)).filter
        (fun a => a.id = i) = []
    rw [List.filter_eq_nil_iff]
    intro a ha
    have h2 := (List.mem_filter.mp ha).2
    simp only [decide_eq_true_eq] at h2 ⊢
    exact h2
  · intro a ha
    rw [hfinal] at ha
    have : a ∈ (((( Db.getPhotosByAlbum s i).map (fun p => p.id)).map
        Db.DelStep.photo).foldl Db.applyDelStep s).albums.filter (fun r => r.id ≠ i) :=
      (sortByKey_perm (fun (r : Rec Album) => r.order) _).mem_iff.mp ha
    simpa using (List.mem_filter.mp this).2
  · intro k hk
    rw [Db.deleteAlbumTrace_split,
      List.take_append_of_le_length (by simpa using hk),
      ← List.map_take, ← List.map_take, delPhotos_albums]

/-- Witness for the cascade: the prefix of the deletion trace of
`exampleStore` covering one of its two child photos leaves the albums
store untouched. -/
theorem deleteAlbum_cascade_witness :
    (1 : Nat) ≤ (Db.getPhotosByAlbum exampleStore 1).length ∧
    (((Db.deleteAlbumTrace exampleStore 1).take 1).foldl Db.applyDelStep
      exampleStore).albums = exampleStore.albums :=
  ⟨by decide, (deleteAlbum_cascade exampleStore 1).2.2.2 1 (by decide)⟩

/-- C5: every list-style read returns (it is a total function) a
permutation of its scope's records — the empty sequence for an empty
scope — sorted ascending by `order`; when the underlying store is in
ascending insertion-id order (as IndexedDB `getAll` guarantees), ties of
equal `order` come out in ascending id order. -/
theorem listing_read_contract (s : DB) (albumId : Nat) :
    ((Db.getAllAlbums s).Perm s.albums ∧
      (s.albums = [] → Db.getAllAlbums s = []) ∧
      (List.Pairwise (fun a b => a.id < b.id) s.albums →
        List.Pairwise (fun a b =>
          a.order < b.order ∨ (a.order = b.order ∧ a.id < b.id))
          (Db.getAllAlbums s))) ∧
    ((Db.getPhotosByAlbum s albumId).Perm
        (s.photos.filter (fun r => r.payload.albumId = albumId)) ∧
      (s.photos.filter (fun r => r.payload.albumId = albumId) = [] →
        Db.getPhotosByAlbum s albumId = []) ∧
      (List.Pairwise (fun a b => a.id < b.id) s.photos →
        List.Pairwise (fun a b =>
          a.order < b.order ∨ (a.order = b.order ∧ a.id < b.id))
          (Db.getPhotosByAlbum s albumId))) ∧
    ((Db.getAllEssays s).Perm s.essays ∧
      (s.essays = [] → Db.getAllEssays s = []) ∧
      (List.Pairwise (fun a b => a.id < b.id) s.essays →
        List.Pairwise (fun a b =>
          a.order < b.order ∨ (a.order = b.order ∧ a.id < b.id))
          (Db.getAllEssays s))) ∧
    ((Db.getAllVideos s).Perm s.videos ∧
      (s.videos = [] → Db.getAllVideos s = []) ∧
      (List.Pairwise (fun a b => a.id < b.id) s.videos →
        List.Pairwise (fun a b =>
          a.order < b.order ∨ (a.order = b.order ∧ a.id < b.id))
          (Db.getAllVideos s))) := by
  refine ⟨⟨sortByKey_perm _ _, fun h => by rw [Db.getAllAlbums, h]; rfl,
      fun h => sortByKey_lex _ _ h⟩,
    ⟨sortByKey_perm _ _, fun h => by rw [Db.getPhotosByAlbum, h]; rfl,
      fun h => sortByKey_lex _ _ (h.sublist (List.filter_sublist _))⟩,
    ⟨sortByKey_perm _ _, fun h => by rw [Db.getAllEssays, h]; rfl,
      fun h => sortByKey_lex _ _ h⟩,
    ⟨sortByKey_perm _ _, fun h => by rw [Db.getAllVideos, h]; rfl,
      fun h => sortByKey_lex _ _ h⟩⟩

/-- Witness for the listing contract at the concrete example store. -/
theorem listing_read_contract_witness :
    List.Pairwise (fun a b => a.id < b.id) exampleStore.photos ∧
    List.Pairwise (fun a b =>
      a.order < b.order ∨ (a.order = b.order ∧ a.id < b.id))
      (Db.getPhotosByAlbum exampleStore 1) :=
  ⟨by decide, (listing_read_contract exampleStore 1).2.1.2.2 (by decide)⟩

/-- C3: in each of the four scopes (albums, photos of one album, essays,
videos) a create appends one record whose `order` is the maximum existing
order in the scope plus one (so exactly 1 on an empty scope), and for
every sequence of creates in one scope the assigned orders are strictly
increasing — each also exceeding every pre-existing order — and a
subsequent listing returns the old records followed by the new ones in
creation order. -/
theorem create_order_assignment :
    (∀ (s : DB) (name : String),
      (Db.createAlbum s name).2.albums = s.albums ++
        [⟨s.nextAlbumId, maxOrder s.albums + 1, ⟨name, s.clock, none⟩⟩] ∧
      (s.albums = [] → maxOrder s.albums + 1 = 1)) ∧
    (∀ (s : DB) (albumId : Nat) (file : JsBlob),
      (Db.addPhoto s albumId file).2.photos = s.photos ++
        [⟨s.nextPhotoId,
          maxOrder (s.photos.filter (fun r => r.payload.albumId = albumId)) + 1,
          ⟨albumId, file, file.type, file.data.length, s.clock⟩⟩] ∧
      (s.photos.filter (fun r => r.payload.albumId = albumId) = [] →
        maxOrder (s.photos.filter (fun r => r.payload.albumId = albumId)) + 1 = 1)) ∧
    (∀ (s : DB) (file : JsBlob) (title : String),
      (Db.addEssay s file title).2.essays = s.essays ++
        [⟨s.nextEssayId, maxOrder s.essays + 1,
          ⟨title, file, "application/pdf", file.data.length, s.clock, none⟩⟩] ∧
      (s.essays = [] → maxOrder s.essays + 1 = 1)) ∧
    (∀ (s : DB) (url : String) (info : VideoInfo),
      parseVideoUrl url = some info →
      (Db.addVideo s url).2.videos = s.videos ++
        [⟨s.nextVideoId, maxOrder s.videos + 1,
          ⟨info.provider, url, info.embedId, info.title, s.clock⟩⟩] ∧
      (s.videos = [] → maxOrder s.videos + 1 = 1)) ∧
    (∀ (s : DB) (names : List String), ∃ recs,
      Db.getAllAlbums (Db.createAlbums s names) = Db.getAllAlbums s ++ recs ∧
      recs.map (fun r => r.payload.name) = names ∧
      List.Chain' (fun a b => a.order < b.order) recs ∧
      (∀ r ∈ recs, ∀ old ∈ s.albums, old.order < r.order)) ∧
    (∀ (s : DB) (albumId : Nat) (files : List JsBlob), ∃ recs,
      Db.getPhotosByAlbum (Db.addPhotos s albumId files) albumId =
        Db.getPhotosByAlbum s albumId ++ recs ∧
      recs.map (fun r => r.payload.blob) = files ∧
      List.Chain' (fun a b => a.order < b.order) recs ∧
      (∀ r ∈ recs, ∀ old ∈ s.photos.filter (fun q => q.payload.albumId = albumId),
        old.order < r.order)) ∧
    (∀ (s : DB) (items : List (JsBlob × String)), ∃ recs,
      Db.getAllEssays (Db.addEssays s items) = Db.getAllEssays s ++ recs ∧
      recs.map (fun r => (r.payload.title, r.payload.pdfBlob)) =
        items.map (fun it => (it.2, it.1)) ∧
      List.Chain' (fun a b => a.order < b.order) recs ∧
      (∀ r ∈ recs, ∀ old ∈ s.essays, old.order < r.order)) ∧
    (∀ (s : DB) (urls : List String), (∀ u ∈ urls, parseVideoUrl u ≠ none) →
      ∃ recs,
      Db.getAllVideos (Db.addVideos s urls) = Db.getAllVideos s ++ recs ∧
      List.Forall₂ (fun u (r : Rec Video) => r.payload.url = u ∧
        parseVideoUrl u =
          some ⟨r.payload.provider, r.payload.embedId, r.payload.title⟩) urls recs ∧
      List.Chain' (fun a b => a.order < b.order) recs ∧
      (∀ r ∈ recs, ∀ old ∈ s.videos, old.order < r.order)) := by
  refine ⟨fun s name => ⟨by rw [createAlbum_snd], fun h => by rw [h]; rfl⟩,
    fun s albumId file => ⟨by rw [addPhoto_snd], fun h => by rw [h]; rfl⟩,
    fun s file title => ⟨by rw [addEssay_snd], fun h => by rw [h]; rfl⟩,
    fun s url info h => ⟨by rw [addVideo_parse_some s h], fun h2 => by rw [h2]; rfl⟩,
    fun s names => ?_, fun s albumId files => ?_, fun s items => ?_,
    fun s urls h => addVideos_listing urls s h⟩
  · obtain ⟨recs, h1, h2, _, h4, h5⟩ := createAlbums_listing names s
    exact ⟨recs, h1, h2, h4, h5⟩
  · exact addPhotos_listing files s albumId
  · exact addEssays_listing items s

/-- Witness for the create contract: the video step formula applied at a
concrete store and URL. -/
theorem create_order_assignment_witness :
    parseVideoUrl ("https://vimeo.com/897021152") = some ⟨"vimeo", "897021152", none⟩ ∧
    ((Db.addVideo (freshDB 0) ("https://vimeo.com/897021152")).2.videos =
      (freshDB 0).videos ++
        [⟨(freshDB 0).nextVideoId, maxOrder (freshDB 0).videos + 1,
          ⟨"vimeo", "https://vimeo.com/897021152", "897021152", none,
            (freshDB 0).clock⟩⟩] ∧
      ((freshDB 0).videos = [] → maxOrder (freshDB 0).videos + 1 = 1)) :=
  ⟨by decide, create_order_assignment.2.2.2.1 (freshDB 0)
    "https://vimeo.com/897021152" ⟨"vimeo", "897021152", none⟩ (by decide)⟩

/-- C4: bulk reorder rewrites the order of each listed record to the
id's 0-based position, silently ignoring ids without a record and (for
photos) ids belonging to a different album, leaving those records
unchanged; when the id list is a permutation of the scope's ids a
subsequent listing returns exactly that id order; and for any id list the
untouched records keep their relative positions among themselves in the
listing. -/
theorem reorder_contract :
    (∀ (s : DB) (ids : List Nat), (s.albums.map (fun r => r.id)).Nodup →
      ids.Nodup →
      (Db.reorderAlbums s ids).albums = s.albums.map (fun r =>
        if r.id ∈ ids then { r with order := ids.indexOf r.id } else r)) ∧
    (∀ (s : DB) (albumId : Nat) (ids : List Nat),
      (s.photos.map (fun r => r.id)).Nodup → ids.Nodup →
      (Db.reorderPhotos s albumId ids).photos = s.photos.map (fun r =>
        if r.id ∈ ids ∧ r.payload.albumId = albumId then
          { r with order := ids.indexOf r.id }
        else r)) ∧
    (∀ (s : DB) (ids : List Nat), (s.essays.map (fun r => r.id)).Nodup →
      ids.Nodup →
      (Db.reorderEssays s ids).essays = s.essays.map (fun r =>
        if r.id ∈ ids then { r with order := ids.indexOf r.id } else r)) ∧
    (∀ (s : DB) (ids : List Nat), (s.videos.map (fun r => r.id)).Nodup →
      ids.Nodup →
      (Db.reorderVideos s ids).videos = s.videos.map (fun r =>
        if r.id ∈ ids then { r with order := ids.indexOf r.id } else r)) ∧
    (∀ (s : DB) (ids : List Nat), (s.albums.map (fun r => r.id)).Nodup →
      ids.Nodup → ids.Perm (s.albums.map (fun r => r.id)) →
      (Db.getAllAlbums (Db.reorderAlbums s ids)).map (fun r => r.id) = ids) ∧
    (∀ (s : DB) (albumId : Nat) (ids : List Nat),
      (s.photos.map (fun r => r.id)).Nodup → ids.Nodup →
      ids.Perm ((s.photos.filter
        (fun r => r.payload.albumId = albumId)).map (fun r => r.id)) →
      (Db.getPhotosByAlbum (Db.reorderPhotos s albumId ids) albumId).map
        (fun r => r.id) = ids) ∧
    (∀ (s : DB) (ids : List Nat), (s.essays.map (fun r => r.id)).Nodup →
      ids.Nodup → ids.Perm (s.essays.map (fun r => r.id)) →
      (Db.getAllEssays (Db.reorderEssays s ids)).map (fun r => r.id) = ids) ∧
    (∀ (s : DB) (ids : List Nat), (s.videos.map (fun r => r.id)).Nodup →
      ids.Nodup → ids.Perm (s.videos.map (fun r => r.id)) →
      (Db.getAllVideos (Db.reorderVideos s ids)).map (fun r => r.id) = ids) ∧
    (∀ (s : DB) (ids : List Nat),
      (Db.getAllAlbums (Db.reorderAlbums s ids)).filter
        (fun r => decide (r.id ∉ ids)) =
      (Db.getAllAlbums s).filter (fun r => decide (r.id ∉ ids))) ∧
    (∀ (s : DB) (albumId : Nat) (ids : List Nat),
      (Db.getPhotosByAlbum (Db.reorderPhotos s albumId ids) albumId).filter
        (fun r => decide (r.id ∉ ids)) =
      (Db.getPhotosByAlbum s albumId).filter (fun r => decide (r.id ∉ ids))) ∧
    (∀ (s : DB) (ids : List Nat),
      (Db.getAllEssays (Db.reorderEssays s ids)).filter
        (fun r => decide (r.id ∉ ids)) =
      (Db.getAllEssays s).filter (fun r => decide (r.id ∉ ids))) ∧
    (∀ (s : DB) (ids : List Nat),
      (Db.getAllVideos (Db.reorderVideos s ids)).filter
        (fun r => decide (r.id ∉ ids)) =
      (Db.getAllVideos s).filter (fun r => decide (r.id ∉ ids))) := by
  refine ⟨?_, ?_, ?_, ?_, ?_, ?_, ?_, ?_, ?_, ?_, ?_, ?_⟩
  · intro s ids hnd hids
    show reorderScope (fun _ => true) ids s.albums = _
    rw [reorderScope_char _ _ _ hnd hids]
    apply List.map_congr_left
    intro r _
    by_cases hm : r.id ∈ ids <;> simp [hm]
  · intro s albumId ids hnd hids
    show reorderScope (fun p => p.albumId = albumId) ids s.photos = _
    rw [reorderScope_char _ _ _ hnd hids]
    apply List.map_congr_left
    intro r _
    by_cases hm : r.id ∈ ids
    · by_cases hg : r.payload.albumId = albumId <;> simp [hm, hg]
    · simp [hm]
  · intro s ids hnd hids
    show reorderScope (fun _ => true) ids s.essays = _
    rw [reorderScope_char _ _ _ hnd hids]
    apply List.map_congr_left
    intro r _
    by_cases hm : r.id ∈ ids <;> simp [hm]
  · intro s ids hnd hids
    show reorderScope (fun _ => true) ids s.videos = _
    rw [reorderScope_char _ _ _ hnd hids]
    apply List.map_congr_left
    intro r _
    by_cases hm : r.id ∈ ids <;> simp [hm]
  · intro s ids hnd hids hperm
    have hperm2 : ids.Perm ((s.albums.filter (fun r => true)).map
        (fun r => r.id)) := by
      rw [List.filter_true]
      exact hperm
    have h := reorder_listing_perm (fun _ => true) ids s.albums hnd hids hperm2
    rw [List.filter_true] at h
    exact h
  · intro s albumId ids hnd hids hperm
    exact reorder_listing_perm (fun p => p.albumId = albumId) ids s.photos
      hnd hids hperm
  · intro s ids hnd hids hperm
    have hperm2 : ids.Perm ((s.essays.filter (fun r => true)).map
        (fun r => r.id)) := by
      rw [List.filter_true]
      exact hperm
    have h := reorder_listing_perm (fun _ => true) ids s.essays hnd hids hperm2
    rw [List.filter_true] at h
    exact h
  · intro s ids hnd hids hperm
    have hperm2 : ids.Perm ((s.videos.filter (fun r => true)).map
        (fun r => r.id)) := by
      rw [List.filter_true]
      exact hperm
    have h := reorder_listing_perm (fun _ => true) ids s.videos hnd hids hperm2
    rw [List.filter_true] at h
    exact h
  · intro s ids
    show (sortByOrder (reorderScope (fun _ => true) ids s.albums)).filter _ =
      (sortByOrder s.albums).filter _
    rw [sortByOrder_filter, sortByOrder_filter, reorderScope_filter_untouched]
  · intro s albumId ids
    show (sortByOrder ((reorderScope (fun p => p.albumId = albumId) ids
        s.photos).filter (fun r => r.payload.albumId = albumId))).filter _ =
      (sortByOrder (s.photos.filter
        (fun r => r.payload.albumId = albumId))).filter _
    rw [sortByOrder_filter, sortByOrder_filter]
    congr 1
    rw [List.filter_comm, reorderScope_filter_untouched, List.filter_comm]
  · intro s ids
    show (sortByOrder (reorderScope (fun _ => true) ids s.essays)).filter _ =
      (sortByOrder s.essays).filter _
    rw [sortByOrder_filter, sortByOrder_filter, reorderScope_filter_untouched]
  · intro s ids
    show (sortByOrder (reorderScope (fun _ => true) ids s.videos)).filter _ =
      (sortByOrder s.videos).filter _
    rw [sortByOrder_filter, sortByOrder_filter, reorderScope_filter_untouched]

/-- Witness for the reorder contract: reversing the two photos of the
example store's album yields a listing in exactly that id order. -/
theorem reorder_contract_witness :
    (exampleStore.photos.map (fun r => r.id)).Nodup ∧
    ([2, 1] : List Nat).Nodup ∧
    ([2, 1] : List Nat).Perm ((exampleStore.photos.filter
      (fun r => r.payload.albumId = 1)).map (fun r => r.id)) ∧
    (Db.getPhotosByAlbum (Db.reorderPhotos exampleStore 1 [2, 1]) 1).map
      (fun r => r.id) = [2, 1] :=
  ⟨by decide, by decide, by decide,
    reorder_contract.2.2.2.2.2.1 exampleStore 1 [2, 1]
      (by decide) (by decide) (by decide)⟩

theorem importVideos_cons_ok {s s1 : DB} {v : Rec Video}
    {rest : List (Rec Video)} {i : Nat}
    (h : Db.addVideo s v.payload.url = (.ok i, s1)) :
    Db.importVideos (v :: rest) s = Db.importVideos rest s1 := by
  rw [Db.importVideos, h]

theorem importVideos_split (good : List (Rec Video)) (bad : Rec Video)
    (rest : List (Rec Video)) (s : DB)
    (hgood : ∀ v ∈ good, parseVideoUrl v.payload.url ≠ none)
    (hbad : parseVideoUrl bad.payload.url = none) :
    Db.importVideos (good ++ bad :: rest) s =
      (.error .invalidVideoUrl,
        Db.addVideos s (good.map (fun v => v.payload.url))) := by
  induction good generalizing s with
  | nil =>
    rw [List.nil_append, Db.importVideos, addVideo_parse_none s hbad]
    rfl
  | cons v g ih =>
    obtain ⟨info, hinfo⟩ := Option.ne_none_iff_exists'.mp
      (hgood v (List.mem_cons_self v g))
    rw [List.cons_append, importVideos_cons_ok (addVideo_parse_some s hinfo),
      List.map_cons,
      show Db.addVideos s (v.payload.url :: g.map (fun v => v.payload.url)) =
        Db.addVideos (Db.addVideo s v.payload.url).2
          (g.map (fun v => v.payload.url)) from rfl,
      addVideo_parse_some s hinfo]
    exact ih _ (fun x hx => hgood x (List.mem_cons_of_mem v hx))

theorem importAll_ok_version (s : DB) (data : ExportDoc)
    (hv : data.version = some 1) :
    Db.importAll s data =
      Db.importVideos data.videos
        (Db.importEssays data.essays
          (Db.importPhotos
            (Db.albumIdLookup (data.albums.zip (Db.getAllAlbums
              (Db.importAlbums data.albums
                (Db.importAssets data.assets (Db.clearAllData s))))))
            data.photos
            (Db.importAlbums data.albums
              (Db.importAssets data.assets (Db.clearAllData s))))) := by
  rw [Db.importAll, if_neg (by simp [hv])]

/-- C8 counterexample: an unparseable video URL in an otherwise valid
snapshot is not skipped — the import rejects with `InvalidReference` and
the remaining (parseable) videos are never imported: the resulting
videos store is empty. -/
theorem import_bad_video_counterexample :
    docBadVideo.version = some 1 ∧
    (Db.importAll (freshDB 0) docBadVideo).1 = .error .invalidVideoUrl ∧
    (Db.importAll (freshDB 0) docBadVideo).2.videos = [] := by
  exact ⟨rfl, rfl, rfl⟩

/-- C8, amended: during importAll with a matching version, the first
stored video entry whose URL no longer parses makes the whole import
reject with `InvalidReference` at that point — assets, albums, photos,
essays and the parseable videos before it are imported, the videos after
it are not. -/
theorem importAll_bad_video_aborts (s : DB) (data : ExportDoc)
    (good : List (Rec Video)) (bad : Rec Video) (rest : List (Rec Video))
    (hv : data.version = some 1)
    (hsplit : data.videos = good ++ bad :: rest)
    (hgood : ∀ v ∈ good, parseVideoUrl v.payload.url ≠ none)
    (hbad : parseVideoUrl bad.payload.url = none) :
    Db.importAll s data =
      (.error .invalidVideoUrl,
        Db.addVideos
          (Db.importEssays data.essays
            (Db.importPhotos
              (Db.albumIdLookup (data.albums.zip (Db.getAllAlbums
                (Db.importAlbums data.albums
                  (Db.importAssets data.assets (Db.clearAllData s))))))
              data.photos
              (Db.importAlbums data.albums
                (Db.importAssets data.assets (Db.clearAllData s)))))
          (good.map (fun v => v.payload.url))) := by
  rw [importAll_ok_version s data hv, hsplit, importVideos_split good bad rest _
    hgood hbad]

/-- Witness for the abort behavior at the concrete document, taking the
unparseable entry as the first video. -/
theorem importAll_bad_video_aborts_witness :
    docBadVideo.version = some 1 ∧
    docBadVideo.videos = [] ++
      (⟨1, 1, ⟨"vimeo", "https://example.com/x", "9", none, 0⟩⟩ : Rec Video) ::
      [⟨2, 2, ⟨"vimeo", "https://vimeo.com/897021152", "897021152", none, 0⟩⟩] ∧
    Db.importAll (freshDB 0) docBadVideo =
      (.error .invalidVideoUrl,
        Db.addVideos
          (Db.importEssays docBadVideo.essays
            (Db.importPhotos
              (Db.albumIdLookup (docBadVideo.albums.zip (Db.getAllAlbums
                (Db.importAlbums docBadVideo.albums
                  (Db.importAssets docBadVideo.assets
                    (Db.clearAllData (freshDB 0)))))))
              docBadVideo.photos
              (Db.importAlbums docBadVideo.albums
                (Db.importAssets docBadVideo.assets
                  (Db.clearAllData (freshDB 0))))))
          (([] : List (Rec Video)).map (fun v => v.payload.url))) :=
  ⟨rfl, rfl,
    importAll_bad_video_aborts (freshDB 0) docBadVideo []
      ⟨1, 1, ⟨"vimeo", "https://example.com/x", "9", none, 0⟩⟩
      [⟨2, 2, ⟨"vimeo", "https://vimeo.com/897021152", "897021152", none, 0⟩⟩]
      rfl rfl (by simp) (by decide)⟩

/-- C9 counterexample: the putAsset passthrough does not return the
local store's result — the underlying local `putAsset` resolves with the
asset key, while the mirror method returns `undefined` (modelled `none`)
on every path, remote success included. -/
theorem putAsset_result_counterexample :
    (Fb.putAsset true exampleFbOn ("headerLogo") ⟨[1], "image/png"⟩).1 = none ∧
    (Db.putAsset exampleFbOn.localDb ("headerLogo") ⟨[1], "image/png"⟩).1 =
      "headerLogo" ∧
    ¬ ((Fb.putAsset true exampleFbOn ("headerLogo") ⟨[1], "image/png"⟩).1 =
        some ((Db.putAsset exampleFbOn.localDb ("headerLogo")
          ⟨[1], "image/png"⟩).1)) := by
  refine ⟨rfl, rfl, ?_⟩
  intro h
  exact Option.noConfusion h

/-- C9, amended: every mutating passthrough of the mirror client performs
the local store operation first, and for every outcome of the remote
interaction (healthy or throwing) the caller-visible value and the local
post-state are exactly those of the bare local operation — except that
`putAsset` returns `undefined` (`none`) instead of the local key result,
while still applying the identical local mutation. -/
theorem mirror_local_first (env : Bool) (fb : Fb) :
    (∀ name, (Fb.createAlbum env fb name).1 = (Db.createAlbum fb.localDb name).1 ∧
      (Fb.createAlbum env fb name).2.localDb = (Db.createAlbum fb.localDb name).2) ∧
    (∀ albumId file,
      (Fb.addPhoto fb albumId file).1 = (Db.addPhoto fb.localDb albumId file).1 ∧
      (Fb.addPhoto fb albumId file).2.localDb =
        (Db.addPhoto fb.localDb albumId file).2) ∧
    (∀ file title,
      (Fb.addEssay env fb file title).1 = (Db.addEssay fb.localDb file title).1 ∧
      (Fb.addEssay env fb file title).2.localDb =
        (Db.addEssay fb.localDb file title).2) ∧
    (∀ url, (Fb.addVideo env fb url).1 = (Db.addVideo fb.localDb url).1 ∧
      (Fb.addVideo env fb url).2.localDb = (Db.addVideo fb.localDb url).2) ∧
    (∀ key file, (Fb.putAsset env fb key file).1 = none ∧
      (Fb.putAsset env fb key file).2.localDb =
        (Db.putAsset fb.localDb key file).2) ∧
    (∀ i, (Fb.deleteAlbum env fb i).localDb = Db.deleteAlbum fb.localDb i) ∧
    (∀ i, (Fb.deleteEssay env fb i).localDb = Db.deleteEssay fb.localDb i) ∧
    (∀ i, (Fb.deleteVideo env fb i).localDb = Db.deleteVideo fb.localDb i) ∧
    (∀ pid, (Fb.removePhoto fb pid).localDb = Db.removePhoto fb.localDb pid) ∧
    (∀ i name,
      (Fb.renameAlbum fb i name).1 = (Db.renameAlbum fb.localDb i name).1 ∧
      (Fb.renameAlbum fb i name).2.localDb = (Db.renameAlbum fb.localDb i name).2) ∧
    (∀ i title,
      (Fb.renameEssay fb i title).1 = (Db.renameEssay fb.localDb i title).1 ∧
      (Fb.renameEssay fb i title).2.localDb =
        (Db.renameEssay fb.localDb i title).2) ∧
    (∀ ids, (Fb.reorderAlbums fb ids).localDb = Db.reorderAlbums fb.localDb ids) ∧
    (∀ albumId ids, (Fb.reorderPhotos fb albumId ids).localDb =
      Db.reorderPhotos fb.localDb albumId ids) ∧
    (∀ ids, (Fb.reorderEssays fb ids).localDb = Db.reorderEssays fb.localDb ids) ∧
    (∀ ids, (Fb.reorderVideos fb ids).localDb = Db.reorderVideos fb.localDb ids) := by
  refine ⟨fun name => ?_, fun albumId file => ?_, fun file title => ?_,
    fun url => ?_, fun key file => ?_, fun i => ?_, fun i => ?_, fun i => ?_,
    fun pid => ?_, fun i name => ?_, fun i title => ?_, fun ids => ?_,
    fun albumId ids => ?_, fun ids => ?_, fun ids => ?_⟩
  · rcases h : Db.createAlbum fb.localDb name with ⟨i, l⟩
    by_cases hb : (fb.syncEnabled && env) = true <;> simp [Fb.createAlbum, h, hb]
  · rcases h : Db.addPhoto fb.localDb albumId file with ⟨r, l⟩
    simp [Fb.addPhoto, h]
  · rcases h : Db.addEssay fb.localDb file title with ⟨r, l⟩
    by_cases hb : (fb.syncEnabled && env) = true <;> simp [Fb.addEssay, h, hb]
  · rcases h : Db.addVideo fb.localDb url with ⟨r, l⟩
    cases r with
    | error e => simp [Fb.addVideo, h]
    | ok i =>
      cases hp : parseVideoUrl url <;>
        by_cases hb : (fb.syncEnabled && env) = true <;>
          simp [Fb.addVideo, h, hp, hb]
  · by_cases hb : (fb.syncEnabled && env) = true <;> simp [Fb.putAsset, hb]
  · by_cases hb : (fb.syncEnabled && env) = true <;> simp [Fb.deleteAlbum, hb]
  · by_cases hb : (fb.syncEnabled && env) = true <;> simp [Fb.deleteEssay, hb]
  · by_cases hb : (fb.syncEnabled && env) = true <;> simp [Fb.deleteVideo, hb]
  · rfl
  · rcases h : Db.renameAlbum fb.localDb i name with ⟨r, l⟩
    simp [Fb.renameAlbum, h]
  · rcases h : Db.renameEssay fb.localDb i title with ⟨r, l⟩
    simp [Fb.renameEssay, h]
  · rfl
  · rfl
  · rfl
  · rfl

/-- C10 counterexample: with sync disabled the putAsset passthrough does
not return what the bare local store operation returns — the local call
resolves with the asset key, the mirror returns `undefined` (`none`). -/
theorem sync_disabled_putAsset_counterexample :
    exampleFb.syncEnabled = false ∧
    (Fb.putAsset false exampleFb ("headerLogo") ⟨[2], "image/png"⟩).1 = none ∧
    (Db.putAsset exampleFb.localDb ("headerLogo") ⟨[2], "image/png"⟩).1 =
      "headerLogo" ∧
    ¬ ((Fb.putAsset false exampleFb ("headerLogo") ⟨[2], "image/png"⟩).1 =
        some ((Db.putAsset exampleFb.localDb ("headerLogo")
          ⟨[2], "image/png"⟩).1)) := by
  refine ⟨rfl, rfl, rfl, ?_⟩
  intro h
  exact Option.noConfusion h

/-- C10, amended: with sync disabled, every operation of the mirror
client returns exactly the bare local store's result on the same state
and evolves the local store identically, leaving the remote and the sync
flag untouched — except that `putAsset` returns `undefined` (`none`)
instead of the local key result, while applying the identical local
mutation. -/
theorem sync_disabled_equiv (fb : Fb) (h : fb.syncEnabled = false) (env : Bool) :
    (∀ key file, Fb.putAsset env fb key file =
      (none, { fb with localDb := (Db.putAsset fb.localDb key file).2 })) ∧
    (∀ key, Fb.getAsset env fb key = (Db.getAsset fb.localDb key, fb)) ∧
    (∀ name, Fb.createAlbum env fb name =
      ((Db.createAlbum fb.localDb name).1,
        { fb with localDb := (Db.createAlbum fb.localDb name).2 })) ∧
    (Fb.getAllAlbums env fb = (.inr (Db.getAllAlbums fb.localDb), fb)) ∧
    (∀ i, Fb.deleteAlbum env fb i =
      { fb with localDb := Db.deleteAlbum fb.localDb i }) ∧
    (∀ url, Fb.addVideo env fb url =
      ((Db.addVideo fb.localDb url).1,
        { fb with localDb := (Db.addVideo fb.localDb url).2 })) ∧
    (Fb.getAllVideos env fb = (.inr (Db.getAllVideos fb.localDb), fb)) ∧
    (∀ i, Fb.deleteVideo env fb i =
      { fb with localDb := Db.deleteVideo fb.localDb i }) ∧
    (∀ file title, Fb.addEssay env fb file title =
      ((Db.addEssay fb.localDb file title).1,
        { fb with localDb := (Db.addEssay fb.localDb file title).2 })) ∧
    (Fb.getAllEssays env fb = (.inr (Db.getAllEssays fb.localDb), fb)) ∧
    (∀ i, Fb.deleteEssay env fb i =
      { fb with localDb := Db.deleteEssay fb.localDb i }) ∧
    (∀ i name, Fb.renameAlbum fb i name =
      ((Db.renameAlbum fb.localDb i name).1,
        { fb with localDb := (Db.renameAlbum fb.localDb i name).2 })) ∧
    (∀ ids, Fb.reorderAlbums fb ids =
      { fb with localDb := Db.reorderAlbums fb.localDb ids }) ∧
    (∀ albumId file, Fb.addPhoto fb albumId file =
      ((Db.addPhoto fb.localDb albumId file).1,
        { fb with localDb := (Db.addPhoto fb.localDb albumId file).2 })) ∧
    (∀ albumId, Fb.getPhotosByAlbum fb albumId =
      Db.getPhotosByAlbum fb.localDb albumId) ∧
    (∀ pid, Fb.removePhoto fb pid =
      { fb with localDb := Db.removePhoto fb.localDb pid }) ∧
    (∀ albumId ids, Fb.reorderPhotos fb albumId ids =
      { fb with localDb := Db.reorderPhotos fb.localDb albumId ids }) ∧
    (∀ i title, Fb.renameEssay fb i title =
      ((Db.renameEssay fb.localDb i title).1,
        { fb with localDb := (Db.renameEssay fb.localDb i title).2 })) ∧
    (∀ ids, Fb.reorderEssays fb ids =
      { fb with localDb := Db.reorderEssays fb.localDb ids }) ∧
    (∀ ids, Fb.reorderVideos fb ids =
      { fb with localDb := Db.reorderVideos fb.localDb ids }) ∧
    (Fb.exportAll fb = Db.exportAll fb.localDb) ∧
    (∀ doc, Fb.importAll env fb doc =
      ((Db.importAll fb.localDb doc).1,
        { fb with localDb := (Db.importAll fb.localDb doc).2 })) ∧
    (∀ url, Fb.parseVideoUrl url = parseVideoUrl url) := by
  refine ⟨fun key file => ?_, fun key => ?_, fun name => ?_, ?_, fun i => ?_,
    fun url => ?_, ?_, fun i => ?_, fun file title => ?_, ?_, fun i => ?_,
    fun i name => ?_, fun ids => ?_, fun albumId file => ?_, fun albumId => ?_,
    fun pid => ?_, fun albumId ids => ?_, fun i title => ?_, fun ids => ?_,
    fun ids => ?_, ?_, fun doc => ?_, fun url => ?_⟩
  · simp [Fb.putAsset, h]
  · simp [Fb.getAsset, h]
  · rcases hc : Db.createAlbum fb.localDb name with ⟨i, l⟩
    simp [Fb.createAlbum, h, hc]
  · simp [Fb.getAllAlbums, h]
  · simp [Fb.deleteAlbum, h]
  · rcases hc : Db.addVideo fb.localDb url with ⟨r, l⟩
    cases r <;> simp [Fb.addVideo, h, hc]
  · simp [Fb.getAllVideos, h]
  · simp [Fb.deleteVideo, h]
  · rcases hc : Db.addEssay fb.localDb file title with ⟨r, l⟩
    simp [Fb.addEssay, h, hc]
  · simp [Fb.getAllEssays, h]
  · simp [Fb.deleteEssay, h]
  · rcases hc : Db.renameAlbum fb.localDb i name with ⟨r, l⟩
    simp [Fb.renameAlbum, hc]
  · rfl
  · rcases hc : Db.addPhoto fb.localDb albumId file with ⟨r, l⟩
    simp [Fb.addPhoto, hc]
  · rfl
  · rfl
  · rfl
  · rcases hc : Db.renameEssay fb.localDb i title with ⟨r, l⟩
    simp [Fb.renameEssay, hc]
  · rfl
  · rfl
  · rfl
  · rcases hc : Db.importAll fb.localDb doc with ⟨r, l⟩
    cases r <;> simp [Fb.importAll, h, hc]
  · rfl

theorem clearAllData_fresh (c : Nat) : Db.clearAllData (freshDB c) = freshDB c :=
  rfl

theorem importAssets_state (entries : List AssetExport) (u : DB)
    (hnd : (entries.map (fun a => a.key)).Nodup)
    (hne : ∀ a ∈ entries, a.data ≠ [])
    (hdisj : ∀ a ∈ entries, ∀ b ∈ u.assets, b.key ≠ a.key) :
    Db.importAssets entries u =
      { u with assets := u.assets ++ entries.map (fun a =>
          ⟨a.key, ⟨b64Decode a.data, a.mime⟩, a.mime, u.clock⟩) } := by
  induction entries generalizing u with
  | nil => simp [Db.importAssets]
  | cons a rest ih =>
    rw [List.map_cons, List.nodup_cons] at hnd
    rw [Db.importAssets, List.foldl_cons, if_pos (hne a (List.mem_cons_self a rest))]
    have hput : (Db.putAsset u a.key ⟨b64Decode a.data, a.mime⟩).2 =
        { u with assets := u.assets ++
          [⟨a.key, ⟨b64Decode a.data, a.mime⟩, a.mime, u.clock⟩] } := by
      rw [Db.putAsset]
      have : u.assets.any (fun b => b.key = a.key) = false := by
        rw [List.any_eq_false]
        intro b hb
        simpa using hdisj a (List.mem_cons_self a rest) b hb
      simp [this]
    have step := ih ((Db.putAsset u a.key ⟨b64Decode a.data, a.mime⟩).2)
      hnd.2
      (fun x hx => hne x (List.mem_cons_of_mem a hx))
      (fun x hx b hb => by
        rw [hput] at hb
        simp only [List.mem_append, List.mem_singleton] at hb
        rcases hb with hb | hb
        · exact hdisj x (List.mem_cons_of_mem a hx) b hb
        · subst hb
          show ¬ a.key = x.key
          intro hc
          exact hnd.1 (hc ▸ List.mem_map_of_mem (fun a => a.key) hx))
    show Db.importAssets rest (Db.putAsset u a.key ⟨b64Decode a.data, a.mime⟩).2 = _
    rw [step, hput]
    simp

theorem createAlbums_fields (names : List String) (u : DB) :
    (Db.createAlbums u names).photos = u.photos ∧
    (Db.createAlbums u names).essays = u.essays ∧
    (Db.createAlbums u names).videos = u.videos ∧
    (Db.createAlbums u names).assets = u.assets ∧
    (Db.createAlbums u names).clock = u.clock ∧
    (Db.createAlbums u names).nextPhotoId = u.nextPhotoId ∧
    (Db.createAlbums u names).nextEssayId = u.nextEssayId ∧
    (Db.createAlbums u names).nextVideoId = u.nextVideoId := by
  induction names generalizing u with
  | nil => exact ⟨rfl, rfl, rfl, rfl, rfl, rfl, rfl, rfl⟩
  | cons n rest ih =>
    have hstep : Db.createAlbums u (n :: rest) =
        Db.createAlbums (Db.createAlbum u n).2 rest := rfl
    rw [hstep]
    obtain ⟨p1, p2, p3, p4, p5, p6, p7, p8⟩ := ih (Db.createAlbum u n).2
    exact ⟨p1.trans (by rw [createAlbum_snd]), p2.trans (by rw [createAlbum_snd]),
      p3.trans (by rw [createAlbum_snd]), p4.trans (by rw [createAlbum_snd]),
      p5.trans (by rw [createAlbum_snd]), p6.trans (by rw [createAlbum_snd]),
      p7.trans (by rw [createAlbum_snd]), p8.trans (by rw [createAlbum_snd])⟩

theorem addPhotoSeq_fields (items : List (Nat × JsBlob)) (u : DB) :
    (Db.addPhotoSeq u items).albums = u.albums ∧
    (Db.addPhotoSeq u items).essays = u.essays ∧
    (Db.addPhotoSeq u items).videos = u.videos ∧
    (Db.addPhotoSeq u items).assets = u.assets ∧
    (Db.addPhotoSeq u items).clock = u.clock ∧
    (Db.addPhotoSeq u items).nextAlbumId = u.nextAlbumId ∧
    (Db.addPhotoSeq u items).nextEssayId = u.nextEssayId ∧
    (Db.addPhotoSeq u items).nextVideoId = u.nextVideoId := by
  induction items generalizing u with
  | nil => exact ⟨rfl, rfl, rfl, rfl, rfl, rfl, rfl, rfl⟩
  | cons it rest ih =>
    have hstep : Db.addPhotoSeq u (it :: rest) =
        Db.addPhotoSeq (Db.addPhoto u it.1 it.2).2 rest := rfl
    rw [hstep]
    obtain ⟨p1, p2, p3, p4, p5, p6, p7, p8⟩ := ih (Db.addPhoto u it.1 it.2).2
    exact ⟨p1.trans (by rw [addPhoto_snd]), p2.trans (by rw [addPhoto_snd]),
      p3.trans (by rw [addPhoto_snd]), p4.trans (by rw [addPhoto_snd]),
      p5.trans (by rw [addPhoto_snd]), p6.trans (by rw [addPhoto_snd]),
      p7.trans (by rw [addPhoto_snd]), p8.trans (by rw [addPhoto_snd])⟩

theorem addEssays_fields (items : List (JsBlob × String)) (u : DB) :
    (Db.addEssays u items).albums = u.albums ∧
    (Db.addEssays u items).photos = u.photos ∧
    (Db.addEssays u items).videos = u.videos ∧
    (Db.addEssays u items).assets = u.assets ∧
    (Db.addEssays u items).clock = u.clock ∧
    (Db.addEssays u items).nextAlbumId = u.nextAlbumId ∧
    (Db.addEssays u items).nextPhotoId = u.nextPhotoId ∧
    (Db.addEssays u items).nextVideoId = u.nextVideoId := by
  induction items generalizing u with
  | nil => exact ⟨rfl, rfl, rfl, rfl, rfl, rfl, rfl, rfl⟩
  | cons it rest ih =>
    have hstep : Db.addEssays u (it :: rest) =
        Db.addEssays (Db.addEssay u it.1 it.2).2 rest := rfl
    rw [hstep]
    obtain ⟨p1, p2, p3, p4, p5, p6, p7, p8⟩ := ih (Db.addEssay u it.1 it.2).2
    exact ⟨p1.trans (by rw [addEssay_snd]), p2.trans (by rw [addEssay_snd]),
      p3.trans (by rw [addEssay_snd]), p4.trans (by rw [addEssay_snd]),
      p5.trans (by rw [addEssay_snd]), p6.trans (by rw [addEssay_snd]),
      p7.trans (by rw [addEssay_snd]), p8.trans (by rw [addEssay_snd])⟩

theorem addVideos_fields (urls : List String) (u : DB) :
    (Db.addVideos u urls).albums = u.albums ∧
    (Db.addVideos u urls).photos = u.photos ∧
    (Db.addVideos u urls).essays = u.essays ∧
    (Db.addVideos u urls).assets = u.assets ∧
    (Db.addVideos u urls).clock = u.clock := by
  induction urls generalizing u with
  | nil => exact ⟨rfl, rfl, rfl, rfl, rfl⟩
  | cons url rest ih =>
    have hstep : Db.addVideos u (url :: rest) =
        Db.addVideos (Db.addVideo u url).2 rest := rfl
    rw [hstep]
    have h2 := ih (Db.addVideo u url).2
    obtain ⟨p1, p2, p3, p4, p5⟩ := h2
    cases hp : parseVideoUrl url with
    | none =>
      exact ⟨p1.trans (by rw [addVideo_parse_none u hp]),
        p2.trans (by rw [addVideo_parse_none u hp]),
        p3.trans (by rw [addVideo_parse_none u hp]),
        p4.trans (by rw [addVideo_parse_none u hp]),
        p5.trans (by rw [addVideo_parse_none u hp])⟩
    | some info =>
      exact ⟨p1.trans (by rw [addVideo_parse_some u hp]),
        p2.trans (by rw [addVideo_parse_some u hp]),
        p3.trans (by rw [addVideo_parse_some u hp]),
        p4.trans (by rw [addVideo_parse_some u hp]),
        p5.trans (by rw [addVideo_parse_some u hp])⟩

theorem importAlbums_eq_createAlbums (entries : List (Rec Album)) (u : DB) :
    Db.importAlbums entries u =
      Db.createAlbums u (entries.map (fun al => al.payload.name)) := by
  rw [Db.importAlbums, Db.createAlbums, List.foldl_map]

theorem importPhotos_eq_seq (amap : Nat → Option Nat) (entries : List PhotoExport)
    (u : DB)
    (h : ∀ p ∈ entries, p.data ≠ ([] : List Char) ∧ (amap p.albumId).getD 0 ≠ 0) :
    Db.importPhotos amap entries u =
      Db.addPhotoSeq u (entries.map (fun p =>
        ((amap p.albumId).getD 0, ⟨b64Decode p.data, p.mime⟩))) := by
  induction entries generalizing u with
  | nil => rfl
  | cons p rest ih =>
    rw [Db.importPhotos, List.foldl_cons, if_pos (h p (List.mem_cons_self p rest))]
    show Db.importPhotos amap rest _ = _
    rw [ih _ (fun x hx => h x (List.mem_cons_of_mem p hx))]
    rfl

theorem importEssays_eq_addEssays (entries : List EssayExport) (u : DB)
    (h : ∀ e ∈ entries, e.data ≠ []) :
    Db.importEssays entries u =
      Db.addEssays u (entries.map (fun e => (⟨b64Decode e.data, e.mime⟩, e.title))) := by
  induction entries generalizing u with
  | nil => rfl
  | cons e rest ih =>
    rw [Db.importEssays, List.foldl_cons, if_pos (h e (List.mem_cons_self e rest))]
    show Db.importEssays rest _ = _
    rw [ih _ (fun x hx => h x (List.mem_cons_of_mem e hx))]
    rfl

theorem importVideos_all_ok (vids : List (Rec Video)) (u : DB)
    (h : ∀ v ∈ vids, parseVideoUrl v.payload.url ≠ none) :
    Db.importVideos vids u =
      (.ok (), Db.addVideos u (vids.map (fun v => v.payload.url))) := by
  induction vids generalizing u with
  | nil => rfl
  | cons v rest ih =>
    obtain ⟨info, hinfo⟩ := Option.ne_none_iff_exists'.mp
      (h v (List.mem_cons_self v rest))
    rw [importVideos_cons_ok (addVideo_parse_some u hinfo), List.map_cons,
      show Db.addVideos u (v.payload.url :: rest.map (fun v => v.payload.url)) =
        Db.addVideos (Db.addVideo u v.payload.url).2
          (rest.map (fun v => v.payload.url)) from rfl,
      addVideo_parse_some u hinfo]
    exact ih _ (fun x hx => h x (List.mem_cons_of_mem v hx))

/-- Witness for the sync-disabled equivalence at a concrete state. -/
theorem sync_disabled_equiv_witness :
    exampleFb.syncEnabled = false ∧
    Fb.getAllAlbums true exampleFb =
      (.inr (Db.getAllAlbums exampleFb.localDb), exampleFb) :=
  ⟨rfl, (sync_disabled_equiv exampleFb rfl true).2.2.2.1⟩

/-- C2: for every snapshot whose `version` field is absent or different
from the store's schema version (1), `importAll` rejects with
`IncompatibleVersion` and returns the store completely unchanged — the
check precedes every mutation. -/
theorem importAll_version_guard (s : DB) (data : ExportDoc)
    (h : data.version ≠ some 1) :
    Db.importAll s data = (.error .incompatibleVersion, s) := by
  rw [Db.importAll, if_pos h]

/-- Witness for the version guard at a concrete mismatching document. -/
theorem importAll_version_guard_witness :
    badVersionDoc.version ≠ some 1 ∧
    Db.importAll exampleStore badVersionDoc =
      (.error .incompatibleVersion, exampleStore) :=
  ⟨by decide, importAll_version_guard exampleStore badVersionDoc (by decide)⟩

/-- C7: video creation derives provider and embed id deterministically
from the URL — the YouTube short URL yields provider `youtube` with the
11-character id, the Vimeo URL yields provider `vimeo` with the numeric
id (each stored in the appended record), and for every URL matching
neither pattern, `addVideo` rejects with `InvalidReference` leaving the
whole store (in particular the videos collection) unchanged. -/
theorem addVideo_url_recognition :
    parseVideoUrl ("https://youtu.be/dQw4w9WgXcQ") =
      some ⟨"youtube", "dQw4w9WgXcQ", none⟩ ∧
    parseVideoUrl ("https://vimeo.com/897021152") =
      some ⟨"vimeo", "897021152", none⟩ ∧
    (∀ s : DB, (Db.addVideo s ("https://youtu.be/dQw4w9WgXcQ")).2.videos =
      s.videos ++ [⟨s.nextVideoId, maxOrder s.videos + 1,
        ⟨"youtube", "https://youtu.be/dQw4w9WgXcQ", "dQw4w9WgXcQ", none, s.clock⟩⟩]) ∧
    (∀ s : DB, (Db.addVideo s ("https://vimeo.com/897021152")).2.videos =
      s.videos ++ [⟨s.nextVideoId, maxOrder s.videos + 1,
        ⟨"vimeo", "https://vimeo.com/897021152", "897021152", none, s.clock⟩⟩]) ∧
    (∀ (s : DB) (url : String), parseVideoUrl url = none →
      Db.addVideo s url = (.error .invalidVideoUrl, s)) := by
  refine ⟨by decide, by decide, fun s => ?_, fun s => ?_, fun s url h => ?_⟩
  · rw [@addVideo_parse_some s ("https://youtu.be/dQw4w9WgXcQ")
      ⟨"youtube", "dQw4w9WgXcQ", none⟩ (by decide)]
  · rw [@addVideo_parse_some s ("https://vimeo.com/897021152")
      ⟨"vimeo", "897021152", none⟩ (by decide)]
  · exact addVideo_parse_none s h

/-- Witness for the rejection branch at the concrete unrecognized URL. -/
theorem addVideo_url_recognition_witness :
    parseVideoUrl ("https://example.com/x") = none ∧
    Db.addVideo (freshDB 0) ("https://example.com/x") =
      (.error .invalidVideoUrl, freshDB 0) :=
  ⟨by decide,
    addVideo_url_recognition.2.2.2.2 (freshDB 0) ("https://example.com/x") (by decide)⟩


/-! ### Export/import round trip -/

theorem getAllAlbums_eq_of_albums {t w : DB} (h : t.albums = w.albums) :
    Db.getAllAlbums t = Db.getAllAlbums w := by
  unfold Db.getAllAlbums
  rw [h]

theorem getPhotosByAlbum_eq_of_photos {t w : DB} (h : t.photos = w.photos)
    (aid : Nat) : Db.getPhotosByAlbum t aid = Db.getPhotosByAlbum w aid := by
  unfold Db.getPhotosByAlbum
  rw [h]

theorem getAllEssays_eq_of_essays {t w : DB} (h : t.essays = w.essays) :
    Db.getAllEssays t = Db.getAllEssays w := by
  unfold Db.getAllEssays
  rw [h]

theorem getAllVideos_eq_of_videos {t w : DB} (h : t.videos = w.videos) :
    Db.getAllVideos t = Db.getAllVideos w := by
  unfold Db.getAllVideos
  rw [h]

theorem getAsset_eq_of_assets {t w : DB} (h : t.assets = w.assets) (k : String) :
    Db.getAsset t k = Db.getAsset w k := by
  unfold Db.getAsset
  rw [h]

theorem mem_sortByOrder {α : Type} {r : Rec α} {l : List (Rec α)} :
    r ∈ sortByOrder l ↔ r ∈ l :=
  (sortByKey_perm (fun r => r.order) l).mem_iff

theorem mem_getAllAlbums {s : DB} {r : Rec Album} :
    r ∈ Db.getAllAlbums s ↔ r ∈ s.albums := by
  unfold Db.getAllAlbums
  exact mem_sortByOrder

theorem mem_getAllEssays {s : DB} {r : Rec Essay} :
    r ∈ Db.getAllEssays s ↔ r ∈ s.essays := by
  unfold Db.getAllEssays
  exact mem_sortByOrder

theorem mem_getAllVideos {s : DB} {r : Rec Video} :
    r ∈ Db.getAllVideos s ↔ r ∈ s.videos := by
  unfold Db.getAllVideos
  exact mem_sortByOrder

theorem mem_getPhotosByAlbum {s : DB} {aid : Nat} {p : Rec Photo}
    (h : p ∈ Db.getPhotosByAlbum s aid) :
    p ∈ s.photos ∧ p.payload.albumId = aid := by
  have h2 : p ∈ s.photos.filter (fun r => r.payload.albumId = aid) :=
    mem_sortByOrder.mp h
  have h3 := List.mem_filter.mp h2
  exact ⟨h3.1, by simpa using h3.2⟩

theorem getAsset_some {s : DB} {k : String} {a : AssetRec}
    (h : Db.getAsset s k = some a) : a ∈ s.assets ∧ a.key = k := by
  have h2 : s.assets.find? (fun b => b.key = k) = some a := h
  exact ⟨List.mem_of_find?_eq_some h2, by simpa using List.find?_some h2⟩

theorem exportAssets_keys (s : DB) (ks : List String) :
    ((ks.filterMap (fun k => (Db.getAsset s k).map expAsset)).map
      (fun e => e.key)) = ks.filter (fun k => (Db.getAsset s k).isSome) := by
  induction ks with
  | nil => rfl
  | cons k rest ih =>
    rw [List.filterMap_cons, List.filter_cons]
    cases hk : Db.getAsset s k with
    | none => simpa using ih
    | some a =>
      have hkey : a.key = k := (getAsset_some hk).2
      simp only [Option.map_some', Option.isSome_some, if_true, List.map_cons, ih]
      rw [show (expAsset a).key = a.key from rfl, hkey]

theorem find?_exportAssets_not_mem (s : DB) {ks : List String} {k : String}
    (hk : k ∉ ks) :
    ((ks.filterMap (fun k2 => (Db.getAsset s k2).map expAsset)).find?
      (fun e => e.key = k)) = none := by
  rw [List.find?_eq_none]
  intro e he
  obtain ⟨k2, hk2, hfe⟩ := List.mem_filterMap.mp he
  cases ha : Db.getAsset s k2 with
  | none =>
    rw [ha] at hfe
    exact absurd hfe (by simp)
  | some a =>
    rw [ha] at hfe
    simp only [Option.map_some', Option.some.injEq] at hfe
    have hekey : e.key = k2 := by
      rw [← hfe]
      exact (getAsset_some ha).2
    simp only [decide_eq_true_eq]
    intro hek
    exact hk ((hek.symm.trans hekey) ▸ hk2)

theorem find?_exportAssets_mem (s : DB) {ks : List String} (hnd : ks.Nodup)
    {k : String} (hk : k ∈ ks) :
    ((ks.filterMap (fun k2 => (Db.getAsset s k2).map expAsset)).find?
      (fun e => e.key = k)) = (Db.getAsset s k).map expAsset := by
  induction ks with
  | nil => cases hk
  | cons k2 rest ih =>
    rw [List.nodup_cons] at hnd
    rw [List.filterMap_cons]
    rcases List.mem_cons.mp hk with rfl | hmem
    · cases ha : Db.getAsset s k with
      | none =>
        simpa using find?_exportAssets_not_mem s hnd.1
      | some a =>
        have hkey : a.key = k := (getAsset_some ha).2
        simp only [Option.map_some']
        rw [List.find?_cons_of_pos _ (by simpa using hkey)]
    · cases ha : Db.getAsset s k2 with
      | none => simpa using ih hnd.2 hmem
      | some a =>
        have hkey : a.key = k2 := (getAsset_some ha).2
        have hne : ¬ ((expAsset a).key = k) := by
          rw [show (expAsset a).key = a.key from rfl, hkey]
          intro hc
          exact hnd.1 (hc ▸ hmem)
        simp only [Option.map_some']
        rw [List.find?_cons_of_neg _ (by simpa using hne)]
        exact ih hnd.2 hmem

theorem assetView_imported (s : DB) (c : Nat)
    (hwfA : ∀ a ∈ s.assets, a.blob.data ≠ [] ∧ ∀ b ∈ a.blob.data, b < 256)
    (k : String) (hk : k ∈ assetKeys) :
    assetView { freshDB c with assets :=
      ((assetKeys.filterMap (fun k2 => (Db.getAsset s k2).map expAsset)).map
        (impAsset c)) } k = assetView s k := by
  have hg : Db.getAsset ({ freshDB c with assets :=
      ((assetKeys.filterMap (fun k2 => (Db.getAsset s k2).map expAsset)).map
        (impAsset c)) }) k =
      ((assetKeys.filterMap (fun k2 => (Db.getAsset s k2).map expAsset)).find?
        (fun e => e.key = k)).map (impAsset c) := by
    show ((assetKeys.filterMap (fun k2 => (Db.getAsset s k2).map expAsset)).map
      (impAsset c)).find? (fun a => a.key = k) = _
    rw [List.find?_map]
    rfl
  unfold assetView
  rw [hg, find?_exportAssets_mem s (by decide) hk]
  cases ha : Db.getAsset s k with
  | none => rfl
  | some a =>
    show some ((b64Decode (b64Encode a.blob.data), a.mime)) =
      some ((a.blob.data, a.mime))
    rw [b64_roundtrip _ (hwfA a (getAsset_some ha).1).2]

theorem findSome?_eq_none_of_all {β γ : Type} {f : β → Option γ} {l : List β}
    (h : ∀ x ∈ l, f x = none) : l.findSome? f = none := by
  induction l with
  | nil => rfl
  | cons x xs ih =>
    simp only [List.findSome?_cons, h x (List.mem_cons_self x xs)]
    exact ih (fun y hy => h y (List.mem_cons_of_mem x hy))

theorem albumIdLookup_zip {olds nrecs : List (Rec Album)}
    (hnd : (olds.map (fun r => r.id)).Nodup) {j : Nat}
    (hj : j < olds.length) (hj2 : j < nrecs.length) :
    Db.albumIdLookup (olds.zip nrecs) ((olds[j]).id) = some ((nrecs[j]).id) := by
  induction olds generalizing nrecs j with
  | nil => exact absurd hj (by simp)
  | cons o olds2 ih =>
    cases nrecs with
    | nil => exact absurd hj2 (by simp)
    | cons r nrecs2 =>
      rw [List.map_cons, List.nodup_cons] at hnd
      unfold Db.albumIdLookup
      rw [List.zip_cons_cons, List.reverse_cons, List.findSome?_append]
      cases j with
      | zero =>
        simp only [List.getElem_cons_zero]
        have hnone : ((olds2.zip nrecs2).reverse.findSome? (fun p =>
            if p.1.id = o.id then some p.2.id else none)) = none := by
          apply findSome?_eq_none_of_all
          intro p hp
          have hp2 : p ∈ olds2.zip nrecs2 := List.mem_reverse.mp hp
          have hmem : p.1 ∈ olds2 := (List.of_mem_zip hp2).1
          have hne : ¬ p.1.id = o.id := fun hc =>
            hnd.1 (hc ▸ List.mem_map_of_mem (fun q => q.id) hmem)
          rw [if_neg hne]
        rw [hnone]
        simp [List.findSome?_cons]
      | succ j2 =>
        have hj2a : j2 < olds2.length := by simpa using hj
        have hj2b : j2 < nrecs2.length := by simpa using hj2
        have ihres := ih hnd.2 hj2a hj2b
        unfold Db.albumIdLookup at ihres
        simp only [List.getElem_cons_succ]
        rw [ihres]
        rfl

theorem flatMap_congr_mem {β γ : Type} {l : List β} {f g : β → List γ}
    (h : ∀ x ∈ l, f x = g x) : l.flatMap f = l.flatMap g := by
  induction l with
  | nil => rfl
  | cons x xs ih =>
    rw [List.flatMap_cons, List.flatMap_cons, h x (List.mem_cons_self x xs),
      ih (fun y hy => h y (List.mem_cons_of_mem x hy))]

theorem flatMap_if_unique {β γ : Type} (prs : List β) (q : β → Prop)
    [DecidablePred q] (blk : β → List γ) (j : Nat) (hj : j < prs.length)
    (htrue : q (prs[j]))
    (hfalse : ∀ i (hi : i < prs.length), i ≠ j → ¬ q (prs[i])) :
    (prs.flatMap (fun pr => if q pr then blk pr else [])) = blk (prs[j]) := by
  induction prs generalizing j with
  | nil => exact absurd hj (by simp)
  | cons pr prs2 ih =>
    rw [List.flatMap_cons]
    cases j with
    | zero =>
      rw [List.getElem_cons_zero] at htrue ⊢
      rw [if_pos htrue]
      have hrest : prs2.flatMap (fun pr2 => if q pr2 then blk pr2 else []) = [] := by
        rw [List.flatMap_eq_nil_iff]
        intro x hx
        obtain ⟨i, hi, rfl⟩ := List.mem_iff_getElem.mp hx
        have hni := hfalse (i + 1) (by simpa using Nat.succ_lt_succ hi)
          (Nat.succ_ne_zero i)
        rw [List.getElem_cons_succ] at hni
        rw [if_neg hni]
      rw [hrest, List.append_nil]
    | succ j2 =>
      have hj2 : j2 < prs2.length := by simpa using hj
      have h0 := hfalse 0 (by simp) (by omega)
      rw [List.getElem_cons_zero] at h0
      rw [if_neg h0, List.nil_append, List.getElem_cons_succ]
      rw [List.getElem_cons_succ] at htrue
      exact ih j2 hj2 htrue (fun i hi hne => by
        have hni := hfalse (i + 1) (by simpa using Nat.succ_lt_succ hi) (by omega)
        rw [List.getElem_cons_succ] at hni
        exact hni)

theorem addPhotoSeq_scope (items : List (Nat × JsBlob)) (u : DB) (aid : Nat) :
    ∃ recs : List (Rec Photo),
      Db.getPhotosByAlbum (Db.addPhotoSeq u items) aid =
        Db.getPhotosByAlbum u aid ++ recs ∧
      recs.map (fun r => (r.payload.blob.data, r.payload.mime)) =
        (items.filter (fun it => it.1 = aid)).map (fun it => (it.2.data, it.2.type)) := by
  induction items generalizing u with
  | nil => exact ⟨[], by simp [Db.addPhotoSeq], rfl⟩
  | cons it rest ih =>
    obtain ⟨recs, h1, h2⟩ := ih (Db.addPhoto u it.1 it.2).2
    have hstep : Db.addPhotoSeq u (it :: rest) =
        Db.addPhotoSeq (Db.addPhoto u it.1 it.2).2 rest := rfl
    by_cases hit : it.1 = aid
    · subst hit
      refine ⟨⟨u.nextPhotoId,
        maxOrder (u.photos.filter (fun q => q.payload.albumId = it.1)) + 1,
        ⟨it.1, it.2, it.2.type, it.2.data.length, u.clock⟩⟩ :: recs, ?_, ?_⟩
      · rw [hstep, h1, getPhotosByAlbum_addPhoto_same]
        simp
      · rw [List.filter_cons, if_pos (by simp)]
        simp [h2]
    · refine ⟨recs, ?_, ?_⟩
      · rw [hstep, h1,
          getPhotosByAlbum_addPhoto_other u it.1 aid it.2 (fun hc => hit hc.symm)]
      · rw [List.filter_cons, if_neg (by simpa using hit)]
        exact h2

theorem export_items_blocks (s : DB)
    (h256 : ∀ p ∈ s.photos, ∀ b ∈ p.payload.blob.data, b < 256)
    (amap : Nat → Option Nat) (olds nrecs : List (Rec Album))
    (hlen : olds.length = nrecs.length)
    (hmap : ∀ i (hi : i < olds.length) (hi2 : i < nrecs.length),
      (amap ((olds[i]).id)).getD 0 = (nrecs[i]).id) :
    ((olds.flatMap (fun al => (Db.getPhotosByAlbum s al.id).map expPhoto)).map
      (fun p => ((amap p.albumId).getD 0, (⟨b64Decode p.data, p.mime⟩ : JsBlob)))) =
    (olds.zip nrecs).flatMap (fun pr => (Db.getPhotosByAlbum s pr.1.id).map (fun p =>
      (pr.2.id, (⟨p.payload.blob.data, p.payload.mime⟩ : JsBlob)))) := by
  induction olds generalizing nrecs with
  | nil => rfl
  | cons o olds2 ih =>
    cases nrecs with
    | nil => exact absurd hlen (by simp)
    | cons r nrecs2 =>
      rw [List.zip_cons_cons, List.flatMap_cons, List.flatMap_cons, List.map_append]
      congr 1
      · rw [List.map_map]
        apply List.map_congr_left
        intro p hp
        obtain ⟨hpmem, hpalb⟩ := mem_getPhotosByAlbum hp
        have h0 := hmap 0 (by simp) (by simp)
        rw [List.getElem_cons_zero, List.getElem_cons_zero] at h0
        show ((amap (expPhoto p).albumId).getD 0,
          (⟨b64Decode (expPhoto p).data, (expPhoto p).mime⟩ : JsBlob)) =
          (r.id, (⟨p.payload.blob.data, p.payload.mime⟩ : JsBlob))
        rw [show (expPhoto p).albumId = p.payload.albumId from rfl,
          show (expPhoto p).data = b64Encode p.payload.blob.data from rfl,
          show (expPhoto p).mime = p.payload.mime from rfl,
          hpalb, h0, b64_roundtrip _ (h256 p hpmem)]
      · exact ih nrecs2 (by simpa using hlen) (fun i hi hi2 => by
          have hmi := hmap (i + 1) (by simpa using Nat.succ_lt_succ hi)
            (by simpa using Nat.succ_lt_succ hi2)
          rw [List.getElem_cons_succ, List.getElem_cons_succ] at hmi
          exact hmi)

theorem photos_roundtrip (s w : DB) (hw : w.photos = [])
    (nrecs : List (Rec Album))
    (hlen : (Db.getAllAlbums s).length = nrecs.length)
    (hndN : (nrecs.map (fun r => r.id)).Nodup) :
    nrecs.map (fun al =>
      (Db.getPhotosByAlbum (Db.addPhotoSeq w
        (((Db.getAllAlbums s).zip nrecs).flatMap (fun pr =>
          (Db.getPhotosByAlbum s pr.1.id).map (fun p =>
            (pr.2.id, (⟨p.payload.blob.data, p.payload.mime⟩ : JsBlob)))))) al.id).map
        (fun p => (p.payload.blob.data, p.payload.mime))) =
    photosView s := by
  have hzlen : ((Db.getAllAlbums s).zip nrecs).length = nrecs.length := by
    rw [List.length_zip, hlen, Nat.min_self]
  apply List.ext_getElem
  · simp only [photosView, List.length_map]
    omega
  · intro j hj1 hj2
    have hjn : j < nrecs.length := by simpa using hj1
    have hjo : j < (Db.getAllAlbums s).length := by
      simp only [photosView, List.length_map] at hj2
      exact hj2
    have hjz : j < ((Db.getAllAlbums s).zip nrecs).length := by
      rw [hzlen]
      exact hjn
    simp only [photosView, List.getElem_map]
    obtain ⟨precs, hP1, hP2⟩ := addPhotoSeq_scope
      (((Db.getAllAlbums s).zip nrecs).flatMap (fun pr =>
        (Db.getPhotosByAlbum s pr.1.id).map (fun p =>
          (pr.2.id, (⟨p.payload.blob.data, p.payload.mime⟩ : JsBlob))))) w
      ((nrecs[j]).id)
    have hw0 : Db.getPhotosByAlbum w ((nrecs[j]).id) = [] := by
      unfold Db.getPhotosByAlbum
      rw [hw]
      rfl
    rw [hP1, hw0, List.nil_append, hP2]
    have htrue0 : ((((Db.getAllAlbums s).zip nrecs)[j]).2.id = (nrecs[j]).id) := by
      rw [List.getElem_zip]
    have hfalse0 : ∀ i (hi : i < ((Db.getAllAlbums s).zip nrecs).length), i ≠ j →
        ¬ ((((Db.getAllAlbums s).zip nrecs)[i]).2.id = (nrecs[j]).id) := by
      intro i hi hne hc
      have hi2 : i < nrecs.length := by
        rw [← hzlen]
        exact hi
      rw [List.getElem_zip] at hc
      have hi3 : i < (nrecs.map (fun r => r.id)).length := by
        rw [List.length_map]
        exact hi2
      have hj3 : j < (nrecs.map (fun r => r.id)).length := by
        rw [List.length_map]
        exact hjn
      have hm : (nrecs.map (fun r => r.id))[i] = (nrecs.map (fun r => r.id))[j] := by
        rw [List.getElem_map, List.getElem_map]
        exact hc
      exact hne (hndN.getElem_inj_iff.mp hm)
    have hfil : (((Db.getAllAlbums s).zip nrecs).flatMap (fun pr =>
        (Db.getPhotosByAlbum s pr.1.id).map (fun p =>
          (pr.2.id, (⟨p.payload.blob.data, p.payload.mime⟩ : JsBlob))))).filter
        (fun it => it.1 = (nrecs[j]).id) =
        (Db.getPhotosByAlbum s ((((Db.getAllAlbums s)[j])).id)).map (fun p =>
          ((nrecs[j]).id, (⟨p.payload.blob.data, p.payload.mime⟩ : JsBlob))) := by
      rw [List.filter_flatMap]
      have hstep : (((Db.getAllAlbums s).zip nrecs).flatMap (fun pr =>
          ((Db.getPhotosByAlbum s pr.1.id).map (fun p =>
            (pr.2.id, (⟨p.payload.blob.data, p.payload.mime⟩ : JsBlob)))).filter
            (fun it => it.1 = (nrecs[j]).id))) =
          ((Db.getAllAlbums s).zip nrecs).flatMap (fun pr =>
            if pr.2.id = (nrecs[j]).id then
              (Db.getPhotosByAlbum s pr.1.id).map (fun p =>
                (pr.2.id, (⟨p.payload.blob.data, p.payload.mime⟩ : JsBlob)))
            else []) := by
        apply flatMap_congr_mem
        intro pr _
        rw [List.filter_map]
        have hcomp : ((fun it : Nat × JsBlob => decide (it.1 = (nrecs[j]).id)) ∘
            (fun p : Rec Photo =>
              (pr.2.id, (⟨p.payload.blob.data, p.payload.mime⟩ : JsBlob)))) =
            fun _ : Rec Photo => decide (pr.2.id = (nrecs[j]).id) := rfl
        rw [hcomp]
        by_cases hc : pr.2.id = (nrecs[j]).id
        · rw [if_pos hc, List.filter_eq_self.mpr (fun x _ => decide_eq_true hc)]
        · rw [if_neg hc, List.filter_eq_nil_iff.mpr (fun x _ => by simpa using hc),
            List.map_nil]
      rw [hstep, flatMap_if_unique (((Db.getAllAlbums s)).zip nrecs)
        (fun pr => pr.2.id = (nrecs[j]).id) _ j hjz htrue0 hfalse0,
        List.getElem_zip]
    rw [hfil, List.map_map]
    rfl

theorem essays_roundtrip (s w : DB) (hw : w.essays = [])
    (hwfE : ∀ e ∈ s.essays, e.payload.pdfBlob.data ≠ [] ∧
      ∀ b ∈ e.payload.pdfBlob.data, b < 256) :
    (Db.getAllEssays (Db.addEssays w (((Db.getAllEssays s).map expEssay).map
      (fun e => ((⟨b64Decode e.data, e.mime⟩ : JsBlob), e.title))))).map
      (fun r => (r.payload.title, r.payload.pdfBlob.data)) = essaysView s := by
  obtain ⟨erecs, h1, h2, _, _⟩ := addEssays_listing
    (((Db.getAllEssays s).map expEssay).map
      (fun e => ((⟨b64Decode e.data, e.mime⟩ : JsBlob), e.title))) w
  have hw0 : Db.getAllEssays w = [] := by
    unfold Db.getAllEssays
    rw [hw]
    rfl
  rw [h1, hw0, List.nil_append]
  have h3 := congrArg (List.map (fun q : String × JsBlob => (q.1, q.2.data))) h2
  simp only [List.map_map, Function.comp_def] at h3
  rw [h3]
  unfold essaysView
  apply List.map_congr_left
  intro e he
  show (e.payload.title, b64Decode (b64Encode e.payload.pdfBlob.data)) =
    (e.payload.title, e.payload.pdfBlob.data)
  rw [b64_roundtrip _ (hwfE e (mem_getAllEssays.mp he)).2]

theorem videosView_of_forall₂ (vids : List (Rec Video)) :
    ∀ recs : List (Rec Video),
    List.Forall₂ (fun u (r : Rec Video) => r.payload.url = u ∧
      parseVideoUrl u = some ⟨r.payload.provider, r.payload.embedId,
        r.payload.title⟩) (vids.map (fun v => v.payload.url)) recs →
    (∀ v ∈ vids, parseVideoUrl v.payload.url =
      some ⟨v.payload.provider, v.payload.embedId, none⟩) →
    recs.map (fun r => (r.payload.url, r.payload.provider, r.payload.embedId)) =
      vids.map (fun v => (v.payload.url, v.payload.provider, v.payload.embedId)) := by
  induction vids with
  | nil =>
    intro recs h _
    cases h
    rfl
  | cons v vids2 ih =>
    intro recs h hwf
    rw [List.map_cons] at h
    obtain ⟨b, recs2, hpair, htail, rfl⟩ := List.forall₂_cons_left_iff.mp h
    have hinfo : (⟨b.payload.provider, b.payload.embedId,
        b.payload.title⟩ : VideoInfo) =
        ⟨v.payload.provider, v.payload.embedId, none⟩ :=
      Option.some.inj (hpair.2.symm.trans (hwf v (List.mem_cons_self v vids2)))
    rw [VideoInfo.mk.injEq] at hinfo
    rw [List.map_cons, List.map_cons,
      ih recs2 htail (fun x hx => hwf x (List.mem_cons_of_mem v hx))]
    rw [hpair.1, hinfo.1, hinfo.2.1]

theorem videos_roundtrip (s w : DB) (hw : w.videos = [])
    (hwfV : ∀ v ∈ s.videos, parseVideoUrl v.payload.url =
      some ⟨v.payload.provider, v.payload.embedId, none⟩) :
    (Db.getAllVideos (Db.addVideos w
      ((Db.getAllVideos s).map (fun v => v.payload.url)))).map
      (fun r => (r.payload.url, r.payload.provider, r.payload.embedId)) =
    videosView s := by
  obtain ⟨vrecs, h1, h2, _, _⟩ := addVideos_listing
    ((Db.getAllVideos s).map (fun v => v.payload.url)) w (by
      intro u hu
      obtain ⟨v, hv, rfl⟩ := List.mem_map.mp hu
      rw [hwfV v (mem_getAllVideos.mp hv)]
      simp)
  have hw0 : Db.getAllVideos w = [] := by
    unfold Db.getAllVideos
    rw [hw]
    rfl
  rw [h1, hw0, List.nil_append]
  exact videosView_of_forall₂ (Db.getAllVideos s) vrecs h2
    (fun v hv => hwfV v (mem_getAllVideos.mp hv))

/-- C1 counterexample: exporting a store whose only album has been
bulk-reordered to order value 0 and importing the document into a fresh
store succeeds and preserves the album name, but the album's `order`
value is 1 after the round trip, not 0 — the import replays `createAlbum`
from the names alone, so order values are reassigned rather than
preserved. -/
theorem export_import_order_counterexample :
    (Db.importAll (freshDB 0) (Db.exportAll reorderedStore)).1 = .ok () ∧
    (Db.getAllAlbums reorderedStore).map (fun r => (r.payload.name, r.order)) =
      [(("A"), 0)] ∧
    (Db.getAllAlbums
        (Db.importAll (freshDB 0) (Db.exportAll reorderedStore)).2).map
      (fun r => (r.payload.name, r.order)) = [(("A"), 1)] :=
  ⟨rfl, rfl, rfl⟩

/-- C1, amended: exporting a well-formed store and importing the document
into a fresh store succeeds and reproduces the same logical records in
listing order — the same album names, the same per-album photo bytes and
MIME types, the same essay titles and PDF bytes, the same video
urls/providers/embed ids, and the same three asset slots (blob contents
byte-identical after the base64 round trip) — although ids and order
values may be reassigned by the replayed creates. -/
theorem export_import_roundtrip (s : DB) (c : Nat) (hwf : WFexport s) :
    (Db.importAll (freshDB c) (Db.exportAll s)).1 = .ok () ∧
    albumNamesView (Db.importAll (freshDB c) (Db.exportAll s)).2 =
      albumNamesView s ∧
    photosView (Db.importAll (freshDB c) (Db.exportAll s)).2 = photosView s ∧
    essaysView (Db.importAll (freshDB c) (Db.exportAll s)).2 = essaysView s ∧
    videosView (Db.importAll (freshDB c) (Db.exportAll s)).2 = videosView s ∧
    ∀ k ∈ assetKeys,
      assetView (Db.importAll (freshDB c) (Db.exportAll s)).2 k =
        assetView s k := by
  obtain ⟨hndA, hwfP, hwfE, hwfA, hwfV⟩ := hwf
  have hEalb : (Db.exportAll s).albums = Db.getAllAlbums s := rfl
  have hEassets : (Db.exportAll s).assets =
      assetKeys.filterMap (fun k => (Db.getAsset s k).map expAsset) := rfl
  have hEphotos : (Db.exportAll s).photos =
      (Db.getAllAlbums s).flatMap (fun al =>
        (Db.getPhotosByAlbum s al.id).map expPhoto) := rfl
  have hEessays : (Db.exportAll s).essays = (Db.getAllEssays s).map expEssay := rfl
  have hEvideos : (Db.exportAll s).videos = Db.getAllVideos s := rfl
  rw [importAll_ok_version (freshDB c) (Db.exportAll s) rfl, clearAllData_fresh,
    hEalb, hEphotos, hEessays, hEvideos, hEassets]
  have hkeys : ((assetKeys.filterMap (fun k =>
      (Db.getAsset s k).map expAsset)).map (fun a => a.key)).Nodup := by
    rw [exportAssets_keys]
    exact List.Nodup.filter _ (by decide)
  have hne2 : ∀ a ∈ assetKeys.filterMap (fun k => (Db.getAsset s k).map expAsset),
      a.data ≠ [] := by
    intro a ha
    obtain ⟨k, _, hfa⟩ := List.mem_filterMap.mp ha
    cases hga : Db.getAsset s k with
    | none =>
      rw [hga] at hfa
      exact absurd hfa (by simp)
    | some b =>
      rw [hga] at hfa
      simp only [Option.map_some', Option.some.injEq] at hfa
      rw [← hfa]
      show b64Encode b.blob.data ≠ []
      exact b64Encode_ne_nil (hwfA b (getAsset_some hga).1).1
  have hs1 : Db.importAssets
      (assetKeys.filterMap (fun k => (Db.getAsset s k).map expAsset))
      (freshDB c) =
      { freshDB c with assets :=
        ((assetKeys.filterMap (fun k => (Db.getAsset s k).map expAsset)).map
          (impAsset c)) } := by
    rw [importAssets_state _ _ hkeys hne2
      (fun a _ b hb => absurd hb (List.not_mem_nil b))]
    rfl
  rw [hs1]
  set S1 : DB := { freshDB c with assets :=
    ((assetKeys.filterMap (fun k => (Db.getAsset s k).map expAsset)).map
      (impAsset c)) } with hS1
  rw [importAlbums_eq_createAlbums]
  set names2 := (Db.getAllAlbums s).map (fun al => al.payload.name) with hnames
  obtain ⟨nrecs, hA1, hA2, hA3, _, _⟩ := createAlbums_listing names2 S1
  have hS1albums : Db.getAllAlbums S1 = [] := by
    rw [hS1]
    rfl
  have hlistA : Db.getAllAlbums (Db.createAlbums S1 names2) = nrecs := by
    rw [hA1, hS1albums, List.nil_append]
  rw [hlistA]
  have hS1next : S1.nextAlbumId = 1 := by
    rw [hS1]
    rfl
  have hndN : (nrecs.map (fun r => r.id)).Nodup := by
    rw [hA3]
    exact List.Nodup.map (fun a b h => by omega) (List.nodup_range _)
  have hidpos : ∀ r ∈ nrecs, r.id ≠ 0 := by
    intro r hr hc
    have hm : r.id ∈ nrecs.map (fun r => r.id) := List.mem_map_of_mem _ hr
    rw [hA3] at hm
    obtain ⟨k2, _, hk2⟩ := List.mem_map.mp hm
    rw [hS1next] at hk2
    omega
  have hlenN : (Db.getAllAlbums s).length = nrecs.length := by
    have hl1 := congrArg List.length hA2
    simp only [List.length_map] at hl1
    have hl2 : names2.length = (Db.getAllAlbums s).length := by
      rw [hnames, List.length_map]
    omega
  have hndO : ((Db.getAllAlbums s).map (fun r => r.id)).Nodup := by
    have hperm0 : (sortByOrder s.albums).Perm s.albums :=
      sortByKey_perm (fun r : Rec Album => r.order) s.albums
    have hperm : (Db.getAllAlbums s).Perm s.albums := hperm0
    exact ((hperm.map (fun r => r.id)).nodup_iff).mpr hndA
  have hmapidx : ∀ i (hi : i < (Db.getAllAlbums s).length)
      (hi2 : i < nrecs.length),
      ((Db.albumIdLookup ((Db.getAllAlbums s).zip nrecs))
        (((Db.getAllAlbums s)[i]).id)).getD 0 = (nrecs[i]).id := by
    intro i hi hi2
    rw [albumIdLookup_zip hndO hi hi2]
    rfl
  have hpcond : ∀ p ∈ (Db.getAllAlbums s).flatMap (fun al =>
      (Db.getPhotosByAlbum s al.id).map expPhoto),
      p.data ≠ ([] : List Char) ∧
      ((Db.albumIdLookup ((Db.getAllAlbums s).zip nrecs)) p.albumId).getD 0 ≠ 0 := by
    intro p hp
    obtain ⟨al, hal, hpin⟩ := List.mem_flatMap.mp hp
    obtain ⟨q, hq, rfl⟩ := List.mem_map.mp hpin
    obtain ⟨hqmem, hqalb⟩ := mem_getPhotosByAlbum hq
    refine ⟨?_, ?_⟩
    · show b64Encode q.payload.blob.data ≠ ([] : List Char)
      exact b64Encode_ne_nil (hwfP q hqmem).1
    · show ((Db.albumIdLookup ((Db.getAllAlbums s).zip nrecs))
        q.payload.albumId).getD 0 ≠ 0
      rw [hqalb]
      obtain ⟨i, hi, rfl⟩ := List.mem_iff_getElem.mp hal
      have hi2 : i < nrecs.length := by
        rw [← hlenN]
        exact hi
      rw [hmapidx i hi hi2]
      exact hidpos _ (List.getElem_mem hi2)
  rw [importPhotos_eq_seq (Db.albumIdLookup ((Db.getAllAlbums s).zip nrecs))
    ((Db.getAllAlbums s).flatMap (fun al =>
      (Db.getPhotosByAlbum s al.id).map expPhoto))
    (Db.createAlbums S1 names2) hpcond]
  rw [export_items_blocks s (fun p hp => (hwfP p hp).2)
    (Db.albumIdLookup ((Db.getAllAlbums s).zip nrecs))
    (Db.getAllAlbums s) nrecs hlenN hmapidx]
  have hecond : ∀ e ∈ (Db.getAllEssays s).map expEssay, e.data ≠ [] := by
    intro e he
    obtain ⟨q2, hq2, rfl⟩ := List.mem_map.mp he
    show b64Encode q2.payload.pdfBlob.data ≠ []
    exact b64Encode_ne_nil (hwfE q2 (mem_getAllEssays.mp hq2)).1
  rw [importEssays_eq_addEssays _ _ hecond]
  have hvcond : ∀ v ∈ Db.getAllVideos s, parseVideoUrl v.payload.url ≠ none := by
    intro v hv
    rw [hwfV v (mem_getAllVideos.mp hv)]
    simp
  rw [importVideos_all_ok _ _ hvcond]
  set base := Db.createAlbums S1 names2 with hbase
  set items := ((Db.getAllAlbums s).zip nrecs).flatMap (fun pr =>
    (Db.getPhotosByAlbum s pr.1.id).map (fun p =>
      (pr.2.id, (⟨p.payload.blob.data, p.payload.mime⟩ : JsBlob)))) with hitems
  set s3 := Db.addPhotoSeq base items with hs3
  set eitems := ((Db.getAllEssays s).map expEssay).map
    (fun e => ((⟨b64Decode e.data, e.mime⟩ : JsBlob), e.title)) with heitems
  set s4 := Db.addEssays s3 eitems with hs4
  set urls2 := (Db.getAllVideos s).map (fun v => v.payload.url) with hurls
  set T := Db.addVideos s4 urls2 with hT
  have hT_albums : T.albums = base.albums := by
    rw [hT, hs4, hs3]
    exact ((addVideos_fields _ _).1).trans (((addEssays_fields _ _).1).trans
      ((addPhotoSeq_fields _ _).1))
  have hT_photos : T.photos = s3.photos := by
    rw [hT, hs4]
    exact ((addVideos_fields _ _).2.1).trans ((addEssays_fields _ _).2.1)
  have hT_essays : T.essays = s4.essays := by
    rw [hT]
    exact (addVideos_fields _ _).2.2.1
  have hT_assets : T.assets = S1.assets := by
    rw [hT, hs4, hs3, hbase]
    exact ((addVideos_fields _ _).2.2.2.1).trans
      (((addEssays_fields _ _).2.2.2.1).trans
        (((addPhotoSeq_fields _ _).2.2.2.1).trans
          ((createAlbums_fields _ _).2.2.2.1)))
  have hbase_photos : base.photos = [] := by
    rw [hbase]
    exact ((createAlbums_fields _ _).1).trans (by rw [hS1]; rfl)
  have hs3_essays : s3.essays = [] := by
    rw [hs3, hbase]
    exact ((addPhotoSeq_fields _ _).2.1).trans
      (((createAlbums_fields _ _).2.1).trans (by rw [hS1]; rfl))
  have hs4_videos : s4.videos = [] := by
    rw [hs4, hs3, hbase]
    exact ((addEssays_fields _ _).2.2.1).trans
      (((addPhotoSeq_fields _ _).2.2.1).trans
        (((createAlbums_fields _ _).2.2.1).trans (by rw [hS1]; rfl)))
  refine ⟨rfl, ?_, ?_, ?_, ?_, ?_⟩
  · show albumNamesView T = albumNamesView s
    unfold albumNamesView
    rw [getAllAlbums_eq_of_albums hT_albums, hlistA, hA2, hnames]
  · show photosView T = photosView s
    unfold photosView
    rw [getAllAlbums_eq_of_albums hT_albums, hlistA]
    have hmapc : nrecs.map (fun al => (Db.getPhotosByAlbum T al.id).map
        (fun p => (p.payload.blob.data, p.payload.mime))) =
        nrecs.map (fun al => (Db.getPhotosByAlbum s3 al.id).map
          (fun p => (p.payload.blob.data, p.payload.mime))) :=
      List.map_congr_left (fun al _ => by
        rw [getPhotosByAlbum_eq_of_photos hT_photos al.id])
    rw [hmapc, hs3, hitems]
    exact photos_roundtrip s base hbase_photos nrecs hlenN hndN
  · show essaysView T = essaysView s
    unfold essaysView
    rw [getAllEssays_eq_of_essays hT_essays, hs4, heitems]
    exact essays_roundtrip s s3 hs3_essays hwfE
  · show videosView T = videosView s
    unfold videosView
    rw [hT, hurls]
    exact videos_roundtrip s s4 hs4_videos hwfV
  · intro k hk
    show assetView T k = assetView s k
    unfold assetView
    rw [getAsset_eq_of_assets hT_assets k, hS1]
    have hav := assetView_imported s c hwfA k hk
    unfold assetView at hav
    exact hav

/-- Witness for the amended round trip at a concrete well-formed store:
one album holding two one-byte photos. -/
theorem export_import_roundtrip_witness :
    WFexport exampleStore ∧
    ((Db.importAll (freshDB 9) (Db.exportAll exampleStore)).1 = .ok () ∧
      albumNamesView (Db.importAll (freshDB 9) (Db.exportAll exampleStore)).2 =
        albumNamesView exampleStore ∧
      photosView (Db.importAll (freshDB 9) (Db.exportAll exampleStore)).2 =
        photosView exampleStore ∧
      essaysView (Db.importAll (freshDB 9) (Db.exportAll exampleStore)).2 =
        essaysView exampleStore ∧
      videosView (Db.importAll (freshDB 9) (Db.exportAll exampleStore)).2 =
        videosView exampleStore ∧
      ∀ k ∈ assetKeys,
        assetView (Db.importAll (freshDB 9) (Db.exportAll exampleStore)).2 k =
          assetView exampleStore k) :=
  ⟨by unfold WFexport; decide, export_import_roundtrip exampleStore 9
    (by unfold WFexport; decide)⟩

end Portfolio
